import Mathlib

/-!
# Account migration: source account → normalized account → creation request

A shallow embedding of `models/models.go` (package `models`): the method
`MarzbanUser.Process` (the normalizer) and the method
`ProcessedUser.ToCreateUserRequest` (the request builder), together with the
parts of the Go standard library they call (`strings.ToUpper`,
`strings.ToLower`, `strings.Split`, `time.Unix`, `time.Date`, `time.Parse`,
`time.Format`).

Conventions of the embedding.

* A Go `string` is a Lean `String`: the strings that are valid UTF-8, which is
  what `encoding/json` hands to the program. A rune is a `Char`.
* A Go `int64` is an `Int` in the range `[-2^63, 2^63)`; arithmetic that can
  leave the range is wrapped explicitly with `wrapInt64`.
* A Go `*string` is an `Option String` (`nil` is `none`).
* A Go `[]string` is a `List String` (a nil slice and an empty slice are both
  the empty list).
* The read-only `map[string]string` lookup table is a partial function
  `String → Option String` (the comma-ok lookup).
* The lines written through `log.Printf` are returned next to the result.
* What the Go runtime decides during a call (the wall clock read by
  `time.Now`, the order in which `range` visits a map) is an explicit
  argument of type `Runtime`.
* Three notions follow the wording of the specification and not the code:
  `isCasingOf` (a word in any letter casing), `isSourceTimestamp` (a valid
  timestamp in the source format) and `readTimestamp` (reading a timestamp in
  the output format). They are compared with what the code computes.
-/

namespace Models

/-! ## Machine integers -/

/-- Least value of a Go `int64`. -/
def minInt64 : Int := -9223372036854775808

/-- Greatest value of a Go `int64`. -/
def maxInt64 : Int := 9223372036854775807

/-- Membership in the range of a Go `int64`. -/
def isInt64 (x : Int) : Prop := minInt64 ≤ x ∧ x ≤ maxInt64

instance (x : Int) : Decidable (isInt64 x) := by
  unfold isInt64; exact inferInstance

/-- Two's-complement reduction of an exact integer to the `int64` that Go
stores: the unique value in `[-2^63, 2^63)` congruent to `x` modulo `2^64`. -/
def wrapInt64 (x : Int) : Int :=
  (x + 9223372036854775808) % 18446744073709551616 - 9223372036854775808

/-! ## Strings: `strings.ToUpper`, `strings.ToLower`, `strings.Split` -/

/-- The Unicode simple case mappings of the runes above `unicode.MaxASCII`,
as Go reads them from the `unicode.CaseRanges` table (`unicode.To`). The table
belongs to the Go toolchain and differs between Unicode versions, so it is an
argument of the embedding. The two laws are the part of the Unicode data that
no version changes: the only non-ASCII runes whose upper case is an ASCII rune
are U+0131 (dotless i, upper case `I`) and U+017F (long s, upper case `S`),
and the only non-ASCII runes whose lower case is an ASCII rune are U+0130
(capital I with dot, lower case `i`) and U+212A (Kelvin sign, lower case
`k`). -/
structure CaseTable where
  upper : Char → Char
  lower : Char → Char
  upper_ascii : ∀ r : Char, 128 ≤ r.toNat → (upper r).toNat < 128 →
    (r.toNat = 0x131 ∧ upper r = 'I') ∨ (r.toNat = 0x17F ∧ upper r = 'S')
  lower_ascii : ∀ r : Char, 128 ≤ r.toNat → (lower r).toNat < 128 →
    (r.toNat = 0x130 ∧ lower r = 'i') ∨ (r.toNat = 0x212A ∧ lower r = 'k')

/-- Go `unicode.ToUpper`: ASCII runes are handled inline (`a`..`z` lose 32),
every other rune goes through the case table. -/
def unicodeToUpper (tbl : CaseTable) (r : Char) : Char :=
  if r.toNat < 128 then
    if 97 ≤ r.toNat ∧ r.toNat ≤ 122 then Char.ofNat (r.toNat - 32) else r
  else tbl.upper r

/-- Go `unicode.ToLower`: ASCII runes are handled inline (`A`..`Z` gain 32),
every other rune goes through the case table. -/
def unicodeToLower (tbl : CaseTable) (r : Char) : Char :=
  if r.toNat < 128 then
    if 65 ≤ r.toNat ∧ r.toNat ≤ 90 then Char.ofNat (r.toNat + 32) else r
  else tbl.lower r

/-- Go `strings.ToUpper`: every rune of the string mapped by
`unicode.ToUpper` (the ASCII-only fast path of the library computes the same
string). -/
def ToUpper (tbl : CaseTable) (s : String) : String :=
  ⟨s.data.map (unicodeToUpper tbl)⟩

/-- Go `strings.ToLower`: every rune of the string mapped by
`unicode.ToLower`. -/
def ToLower (tbl : CaseTable) (s : String) : String :=
  ⟨s.data.map (unicodeToLower tbl)⟩

/-- The pieces of a rune sequence between occurrences of `sep`, in order;
there is always one piece more than there are separators. -/
def splitRunes (sep : Char) : List Char → List (List Char)
  | [] => [[]]
  | c :: cs =>
    if c = sep then [] :: splitRunes sep cs
    else
      match splitRunes sep cs with
      | [] => [[c]]
      | piece :: rest => (c :: piece) :: rest

/-- Go `strings.Split(s, "/")`. -/
def SplitSlash (s : String) : List String :=
  (splitRunes '/' s.data).map String.mk

/-! ## Time: `time.Unix`, `time.Date`, `time.Parse`, `time.Format`

Instants are kept the way Go keeps them, as a count of seconds from the Unix
epoch plus nanoseconds, always in UTC. The calendar is the proleptic Gregorian
calendar that package `time` implements. -/

/-- A Go `time.Time` in UTC: seconds since 1970-01-01T00:00:00Z and the
nanoseconds within that second. -/
structure Time where
  sec : Int
  nsec : Nat
  deriving DecidableEq, Repr

/-- Leap years of the Gregorian calendar (`time.isLeap`). -/
def isLeap (year : Int) : Bool :=
  year % 4 = 0 ∧ (year % 100 ≠ 0 ∨ year % 400 = 0)

/-- Number of days of a month in a year (`time.daysIn`); 0 for a month
outside 1..12. -/
def daysIn (month : Int) (year : Int) : Int :=
  if month = 2 then (if isLeap year then 29 else 28)
  else if month = 4 ∨ month = 6 ∨ month = 9 ∨ month = 11 then 30
  else if 1 ≤ month ∧ month ≤ 12 then 31
  else 0

/-- Days from 1970-01-01 to the given civil date, counting years from
March so that the leap day is the last day of the counted year. -/
def daysFromCivil (year month day : Int) : Int :=
  let y := if month ≤ 2 then year - 1 else year
  let era := y / 400
  let yoe := y - era * 400
  let mp := if month > 2 then month - 3 else month + 9
  let doy := (153 * mp + 2) / 5 + day - 1
  let doe := yoe * 365 + yoe / 4 - yoe / 100 + doy
  era * 146097 + doe - 719468

/-- The civil date (year, month, day) that lies the given number of days
after 1970-01-01. -/
def civilFromDays (days : Int) : Int × Int × Int :=
  let z := days + 719468
  let era := z / 146097
  let doe := z - era * 146097
  let yoe := (doe - doe / 1460 + doe / 36524 - doe / 146096) / 365
  let doy := doe - (365 * yoe + yoe / 4 - yoe / 100)
  let mp := (5 * doy + 2) / 153
  let d := doy - (153 * mp + 2) / 5 + 1
  let m := if mp < 10 then mp + 3 else mp - 9
  let y := yoe + era * 400
  (if m ≤ 2 then y + 1 else y, m, d)

/-- Go `time.Unix(sec, 0).UTC()`. -/
def Unix (sec : Int) : Time := ⟨sec, 0⟩

/-- Go `time.Date(year, month, day, hour, min, sec, nsec, time.UTC)` for
fields that are already in their normal ranges. -/
def Date (year month day hour min sec : Int) (nsec : Nat) : Time :=
  ⟨daysFromCivil year month day * 86400 + hour * 3600 + min * 60 + sec, nsec⟩

/-- The decimal digit for a value below ten. -/
def digitChar (n : Nat) : Char := Char.ofNat (48 + n % 10)

/-- The decimal digits of a natural number, most significant first, produced
with a bounded number of divisions; `fuel` digits are enough for any number
below `10 ^ fuel`. -/
def natDigits : Nat → Nat → List Char
  | 0, _ => []
  | fuel + 1, n => if n < 10 then [digitChar n] else natDigits fuel (n / 10) ++ [digitChar n]

/-- Go `time.appendInt`: the decimal form of `x`, zero-padded on the left to
at least `width` digits, with a leading minus sign for a negative number. -/
def appendInt (x : Int) (width : Nat) : List Char :=
  let u := x.natAbs
  let ds := natDigits (u + 1) u
  let padded := List.replicate (width - ds.length) '0' ++ ds
  if x < 0 then '-' :: padded else padded

/-- Go `Time.Format("2006-01-02T15:04:05.000Z")` on a UTC instant: four-digit
year, two-digit month, day, hour, minute and second, then a dot and the
nine-digit nanoseconds cut down by their last six digits, then the literal
letter Z. -/
def Format (t : Time) : String :=
  let days := t.sec / 86400
  let secs := t.sec % 86400
  let ymd := civilFromDays days
  let nanos := appendInt (Int.ofNat t.nsec) 9
  ⟨appendInt ymd.1 4 ++ ['-'] ++ appendInt ymd.2.1 2 ++ ['-'] ++ appendInt ymd.2.2 2
    ++ ['T'] ++ appendInt (secs / 3600) 2 ++ [':'] ++ appendInt (secs % 3600 / 60) 2
    ++ [':'] ++ appendInt (secs % 60) 2
    ++ ['.'] ++ nanos.take (nanos.length - 6) ++ ['Z']⟩

/-- Go `time.isDigit` on the first rune of what is left of the input. -/
def isDigitChar (c : Char) : Bool := 48 ≤ c.toNat ∧ c.toNat ≤ 57

/-- Numeric value of a decimal digit rune. -/
def digitVal (c : Char) : Int := Int.ofNat (c.toNat - 48)

/-- Go `time.getnum`: a two-digit number at the head of the input, or, when
`fixed` is false, a one-digit number if the second rune is not a digit.
Returns the number and the rest of the input. -/
def getnum (s : List Char) (fixed : Bool) : Option (Int × List Char) :=
  match s with
  | [] => none
  | a :: rest =>
    if isDigitChar a then
      match rest with
      | b :: rest2 =>
        if isDigitChar b then some (digitVal a * 10 + digitVal b, rest2)
        else if fixed then none else some (digitVal a, rest)
      | [] => if fixed then none else some (digitVal a, rest)
    else none

/-- Go `time.skip` for a one-rune literal of the layout that is not a space:
the input must start with exactly that rune. -/
def skipLit (c : Char) (s : List Char) : Option (List Char) :=
  match s with
  | a :: rest => if a = c then some rest else none
  | [] => none

/-- The year field `2006` of a layout: exactly four digits. -/
def getYear (s : List Char) : Option (Int × List Char) :=
  match s with
  | a :: b :: c :: d :: rest =>
    if isDigitChar a ∧ isDigitChar b ∧ isDigitChar c ∧ isDigitChar d then
      some (digitVal a * 1000 + digitVal b * 100 + digitVal c * 10 + digitVal d, rest)
    else none
  | _ => none

/-- The value of a run of decimal digits read left to right. -/
def digitsVal (ds : List Char) : Nat :=
  ds.foldl (fun acc c => acc * 10 + (c.toNat - 48)) 0

/-- The fractional second that `time.Parse` accepts right after the seconds
field even though the layout has none: a period or comma followed by at least
one digit. All the digits are consumed; the first nine give the nanoseconds
(`time.parseNanoseconds`). Without such a field the input is left as it is. -/
def getFraction (s : List Char) : Nat × List Char :=
  match s with
  | sepr :: d :: rest =>
    if (sepr = '.' ∨ sepr = ',') ∧ isDigitChar d then
      let ds := (d :: rest).takeWhile isDigitChar
      let kept := ds.take 9
      (digitsVal kept * 10 ^ (9 - kept.length), (d :: rest).dropWhile isDigitChar)
    else (0, s)
  | _ => (0, s)

/-- Go `time.Parse("2006-01-02T15:04:05", s)`: `none` stands for a returned
error. The fields are read left to right; month, hour, minute and second are
range checked, the day is checked against the length of its month, and no
text may follow. The result is in UTC. -/
def Parse (s : String) : Option Time := do
  let (year, s1) ← getYear s.data
  let s2 ← skipLit '-' s1
  let (month, s3) ← getnum s2 true
  if month ≤ 0 ∨ 12 < month then none
  let s4 ← skipLit '-' s3
  let (day, s5) ← getnum s4 true
  let s6 ← skipLit 'T' s5
  let (hour, s7) ← getnum s6 false
  if 24 ≤ hour then none
  let s8 ← skipLit ':' s7
  let (min, s9) ← getnum s8 true
  if 60 ≤ min then none
  let s10 ← skipLit ':' s9
  let (sec, s11) ← getnum s10 true
  if 60 ≤ sec then none
  let (nsec, s12) := getFraction s11
  if s12 ≠ [] then none
  if day < 1 ∨ day > daysIn month year then none
  some (Date year month day hour min sec nsec)

/-! ## Data model -/

/-- The VLESS block of `MarzbanProxies`. -/
structure VlessProxy where
  ID : String
  Flow : String
  deriving DecidableEq, Repr

/-- The Trojan block of `MarzbanProxies`. -/
structure TrojanProxy where
  Password : String
  Flow : String
  deriving DecidableEq, Repr

/-- The Shadowsocks block of `MarzbanProxies`. -/
structure ShadowsocksProxy where
  Password : String
  Method : String
  deriving DecidableEq, Repr

/-- Go `MarzbanProxies`: the per-protocol credentials of a source account. -/
structure MarzbanProxies where
  Vless : VlessProxy
  Trojan : TrojanProxy
  Shadowsocks : ShadowsocksProxy
  deriving DecidableEq, Repr

/-- Go `MarzbanUser`: the source account. `Inbounds` lists the entries of
the Go map (group name, tags of the group). -/
structure MarzbanUser where
  Proxies : MarzbanProxies
  CreatedAt : String
  Expire : Int
  DataLimit : Int
  UsedTraffic : Int
  DataLimitResetStrategy : String
  Inbounds : List (String × List String)
  Note : String
  Username : String
  Status : String
  SubscriptionURL : String
  deriving DecidableEq, Repr

/-- Go `ProcessedUser`: the normalized account. -/
structure ProcessedUser where
  CreatedAt : String
  Expire : String
  DataLimit : Int
  RemainingVolume : Int
  DataLimitResetStrategy : String
  InboundTags : List String
  Note : String
  Username : String
  Status : String
  VlessID : String
  TrojanPassword : String
  ShadowsocksPassword : String
  SubscriptionHash : String
  deriving DecidableEq, Repr

/-- Go `CreateUserRequest`: the request sent to the destination panel. -/
structure CreateUserRequest where
  Username : String
  Status : String
  ShortUUID : Option String
  TrojanPassword : Option String
  VlessUUID : Option String
  SsPassword : Option String
  TrafficLimitBytes : Int
  TrafficLimitStrategy : String
  ActiveUserInbounds : List String
  ExpireAt : String
  CreatedAt : String
  Description : String
  ActivateAllInbounds : Bool
  deriving DecidableEq, Repr

/-- Go `User`: a source account next to an already normalized one. -/
structure User where
  MarzbanUser : MarzbanUser
  ProcessedUser : ProcessedUser
  deriving DecidableEq, Repr

/-- What the Go runtime contributes to one call of `MarzbanUser.Process`:
the instant `time.Now().UTC()` returns, and the order in which a `range`
loop visits the entries of a map, which is some rearrangement of them. -/
structure Runtime where
  now : Time
  rangeOrder : List (String × List String) → List (String × List String)
  rangeOrder_perm : ∀ m, (rangeOrder m).Perm m

/-! ## The normalizer: `MarzbanUser.Process` -/

/-- Go `(u *MarzbanUser) Process()`. -/
def MarzbanUser.Process (rt : Runtime) (u : MarzbanUser) : ProcessedUser :=
  let expireTime :=
    if u.Expire > 0 then Unix u.Expire
    else Date 2099 12 31 15 13 22 214000000
  let subscriptionHash :=
    if u.SubscriptionURL ≠ "" then
      let parts := SplitSlash u.SubscriptionURL
      if parts.length > 0 then parts.getD (parts.length - 1) "" else ""
    else ""
  -- combine all inbounds into one list
  let inboundTags :=
    (rt.rangeOrder u.Inbounds).foldl (fun tags entry => tags ++ entry.2) []
  let parsedCreatedAt :=
    match Parse u.CreatedAt with
    | some t => t
    | none => rt.now
  -- Calculate remaining volume: data_limit - used_traffic
  let difference := wrapInt64 (u.DataLimit - u.UsedTraffic)
  let remainingVolume := if difference < 0 then 0 else difference
  { CreatedAt := Format parsedCreatedAt
    Expire := Format expireTime
    DataLimit := u.DataLimit
    RemainingVolume := remainingVolume
    DataLimitResetStrategy := u.DataLimitResetStrategy
    Note := u.Note
    InboundTags := inboundTags
    Username := u.Username
    Status := u.Status
    VlessID := u.Proxies.Vless.ID
    TrojanPassword := u.Proxies.Trojan.Password
    ShadowsocksPassword := u.Proxies.Shadowsocks.Password
    SubscriptionHash := subscriptionHash }

/-- Go `(u *User) Process()`: the stored normalized account when it has a
username, else the source account normalized afresh. -/
def User.Process (rt : Runtime) (u : User) : Models.ProcessedUser :=
  if u.ProcessedUser.Username ≠ "" then u.ProcessedUser
  else u.MarzbanUser.Process rt

/-! ## The request builder: `ProcessedUser.ToCreateUserRequest` -/

/-- Go `strPtr`: `nil` for the empty string, else a pointer to the string. -/
def strPtr (s : String) : Option String :=
  if s = "" then none else some s

/-- The line that `log.Printf` formats for an inbound tag without a match
(the `%s` verb writes the tag as it is). -/
def inboundWarning (tag : String) : String :=
  "Warning: inbound tag " ++ tag ++ " not found in destination panel, skipping"

/-- One turn of the loop over `p.InboundTags`: the state is the list of
identifiers collected so far and the lines logged so far. -/
def resolveInbound (remnawaveInbounds : String → Option String)
    (state : List String × List String) (tag : String) : List String × List String :=
  match remnawaveInbounds tag with
  | some uuid => (state.1 ++ [uuid], state.2)
  | none => (state.1, state.2 ++ [inboundWarning tag])

/-- Go `(p *ProcessedUser) ToCreateUserRequest(...)`. The first component is
the returned request, the second the lines logged during the call.
`SanitizeUsername` stands for `util.SanitizeUsername`, a function of another
package of the repository. The fields of `req` that the Go code assigns
after building the literal (`ActiveUserInbounds`, `ActivateAllInbounds` and
the four pointers, which start as `[]string{}`, `true` and `nil`) are each
followed as a value of their own, and the record is built once at the end. -/
def ProcessedUser.ToCreateUserRequest (tbl : CaseTable) (SanitizeUsername : String → String)
    (p : ProcessedUser) (preferredStrategy : String) (preserveStatus : Bool)
    (preserveSubHash : Bool) (preserveInbounds : Bool)
    (remnawaveInbounds : String → Option String) : CreateUserRequest × List String :=
  let strategy := ToUpper tbl p.DataLimitResetStrategy
  let strategy := if strategy = "YEAR" then "NO_RESET" else strategy
  let strategy := if preferredStrategy ≠ "" then preferredStrategy else strategy
  let status :=
    if preserveStatus ∧ ToLower tbl p.Status ≠ "on_hold" then ToUpper tbl p.Status
    else "ACTIVE"
  let validUsername := SanitizeUsername p.Username
  -- if preserveInbounds: the loop, then the two assignments
  let resolved :=
    if preserveInbounds then
      p.InboundTags.foldl (resolveInbound remnawaveInbounds) ([], [])
    else ([], [])
  let activeUserInbounds := if preserveInbounds then resolved.1 else []
  let activateAllInbounds := if preserveInbounds then false else true
  -- the optional fields
  let shortUUID :=
    if preserveSubHash ∧ p.SubscriptionHash ≠ "" then strPtr p.SubscriptionHash else none
  let trojanPassword :=
    if p.TrojanPassword ≠ "" then strPtr p.TrojanPassword else none
  let vlessUUID :=
    if p.VlessID ≠ "" then strPtr p.VlessID else none
  let ssPassword :=
    if p.ShadowsocksPassword ≠ "" then strPtr p.ShadowsocksPassword else none
  ({ Username := validUsername
     Status := status
     ShortUUID := shortUUID
     TrojanPassword := trojanPassword
     VlessUUID := vlessUUID
     SsPassword := ssPassword
     TrafficLimitBytes := p.RemainingVolume
     TrafficLimitStrategy := strategy
     ActiveUserInbounds := activeUserInbounds
     ExpireAt := p.Expire
     CreatedAt := p.CreatedAt
     Description := p.Note
     ActivateAllInbounds := activateAllInbounds },
   resolved.2)

/-! ## Case-insensitive comparison, as the specification words it -/

/-- Two runes that are the same letter up to ASCII letter case: equal, or one
is a lower-case ASCII letter and the other its upper-case form. -/
def sameLetter (a b : Char) : Bool :=
  a = b ∨ (97 ≤ a.toNat ∧ a.toNat ≤ 122 ∧ b.toNat + 32 = a.toNat)
    ∨ (97 ≤ b.toNat ∧ b.toNat ≤ 122 ∧ a.toNat + 32 = b.toNat)

/-- Rune sequences of the same length that agree position by position up to
letter case. -/
def sameLetters : List Char → List Char → Bool
  | [], [] => true
  | a :: s, b :: t => sameLetter a b && sameLetters s t
  | _, _ => false

/-- The string `s` is the word `word` in some letter casing (case-insensitive
equality). For the words used here, `year` and `on_hold`, Unicode simple case
folding relates no further strings, since none of their letters has a
non-ASCII case variant. -/
def isCasingOf (s word : String) : Prop := sameLetters s.data word.data = true

instance (s word : String) : Decidable (isCasingOf s word) := by
  unfold isCasingOf; exact inferInstance

/-! ## Sample inputs -/

/-- Upper-case mapping of a small case table: dotless i, long s and é have
an upper-case form, every other rune is left as it is. -/
def sampleUpper (r : Char) : Char :=
  if r.toNat = 0x131 then 'I' else if r.toNat = 0x17F then 'S'
  else if r.toNat = 0xE9 then Char.ofNat 0xC9 else r

/-- Lower-case mapping of a small case table: capital I with dot, the Kelvin
sign and É have a lower-case form, every other rune is left as it is. -/
def sampleLower (r : Char) : Char :=
  if r.toNat = 0x130 then 'i' else if r.toNat = 0x212A then 'k'
  else if r.toNat = 0xC9 then Char.ofNat 0xE9 else r

/-- A small case table satisfying the two laws. -/
def sampleCaseTable : CaseTable where
  upper := sampleUpper
  lower := sampleLower
  upper_ascii := by
    intro r hr hu
    unfold sampleUpper at hu ⊢
    split_ifs at hu ⊢ with h1 h2 h3
    · exact Or.inl ⟨h1, rfl⟩
    · exact Or.inr ⟨h2, rfl⟩
    · exact absurd hu (by decide)
    · omega
  lower_ascii := by
    intro r hr hu
    unfold sampleLower at hu ⊢
    split_ifs at hu ⊢ with h1 h2 h3
    · exact Or.inl ⟨h1, rfl⟩
    · exact Or.inr ⟨h2, rfl⟩
    · exact absurd hu (by decide)
    · omega

/-- A runtime whose clock reads 2023-11-14T22:13:20Z and whose `range` loop
visits map entries in the listed order. -/
def sampleRuntime : Runtime where
  now := Unix 1700000000
  rangeOrder := id
  rangeOrder_perm := fun m => List.Perm.refl m

/-- A username sanitizer that keeps ASCII letters, digits and underscores. -/
def sampleSanitize (s : String) : String :=
  ⟨s.data.filter (fun c => c.isAlphanum || c = '_')⟩

/-- A lookup table with the single entry `a ↦ id1`. -/
def sampleLookup (tag : String) : Option String :=
  if tag = "a" then some "id1" else none

/-- A source account with every text field empty and every number zero. -/
def blankUser : MarzbanUser :=
  { Proxies := ⟨⟨"", ""⟩, ⟨"", ""⟩, ⟨"", ""⟩⟩
    CreatedAt := ""
    Expire := 0
    DataLimit := 0
    UsedTraffic := 0
    DataLimitResetStrategy := ""
    Inbounds := []
    Note := ""
    Username := ""
    Status := ""
    SubscriptionURL := "" }

/-- A normalized account with every text field empty and every number zero. -/
def blankProcessed : ProcessedUser :=
  { CreatedAt := ""
    Expire := ""
    DataLimit := 0
    RemainingVolume := 0
    DataLimitResetStrategy := ""
    InboundTags := []
    Note := ""
    Username := ""
    Status := ""
    VlessID := ""
    TrojanPassword := ""
    ShadowsocksPassword := ""
    SubscriptionHash := "" }

/-- A source account that has used more than its limit: 100 bytes allowed,
250 bytes used. -/
def overUsedUser : MarzbanUser :=
  { blankUser with DataLimit := 100, UsedTraffic := 250 }

/-- A source account at the edge of the `int64` range: the greatest data
limit and a used traffic of -1. -/
def edgeUser : MarzbanUser :=
  { blankUser with DataLimit := 9223372036854775807, UsedTraffic := -1 }

/-- A normalized account with the inbound tags `a` and `b`. -/
def twoTagAccount : ProcessedUser :=
  { blankProcessed with InboundTags := ["a", "b"] }

/-- A normalized account with a VLESS identifier and a subscription hash and
no Trojan or Shadowsocks password. -/
def vlessAccount : ProcessedUser :=
  { blankProcessed with VlessID := "3f1c", SubscriptionHash := "abc123" }

/-- A normalized account whose reset strategy is `year` in mixed case. -/
def yearlyAccount : ProcessedUser :=
  { blankProcessed with DataLimitResetStrategy := "yEaR" }

/-- A normalized account on hold, written in mixed case. -/
def onHoldAccount : ProcessedUser :=
  { blankProcessed with Status := "On_Hold" }

/-- A normalized account that is disabled. -/
def disabledAccount : ProcessedUser :=
  { blankProcessed with Status := "disabled" }

/-- A source account with the subscription URL `https://host/sub/abc123`. -/
def subscribedUser : MarzbanUser :=
  { blankUser with SubscriptionURL := "https://host/sub/abc123" }

/-- A source account whose subscription URL ends with a slash. -/
def slashUser : MarzbanUser :=
  { blankUser with SubscriptionURL := "https://host/sub/" }

/-- A source account whose subscription URL has no slash. -/
def tokenUser : MarzbanUser :=
  { blankUser with SubscriptionURL := "abc123" }

/-- A source account whose expiry is a negative epoch value. -/
def negativeExpireUser : MarzbanUser :=
  { blankUser with Expire := -86400, CreatedAt := "2024-02-29T10:00:00" }

/-- A source account with two inbound groups, the second with a repeated
tag. -/
def twoGroupUser : MarzbanUser :=
  { blankUser with
    CreatedAt := "2024-02-29T10:00:00"
    Inbounds := [("vless", ["a"]), ("trojan", ["b", "a"])] }

/-- A lookup table with the entries `a ↦ id1` and `b ↦ id2`. -/
def twoEntryLookup (tag : String) : Option String :=
  if tag = "a" then some "id1" else if tag = "b" then some "id2" else none

/-- A runtime whose `range` loop visits map entries in the reverse of the
listed order. -/
def reverseRuntime : Runtime where
  now := Unix 1700000000
  rangeOrder := List.reverse
  rangeOrder_perm := fun m => List.reverse_perm m

/-- A normalized account with a negative remaining volume, as a caller
could build one by hand. -/
def negativeVolumeAccount : ProcessedUser :=
  { blankProcessed with RemainingVolume := -5, DataLimit := 7 }

/-- A normalized account with a reset strategy outside the known vocabulary. -/
def oddStrategyAccount : ProcessedUser :=
  { blankProcessed with DataLimitResetStrategy := "fortnight" }

/-- A source account without a data limit that has used 250 bytes. -/
def unlimitedUser : MarzbanUser :=
  { blankUser with DataLimit := 0, UsedTraffic := 250 }

/-! ## Timestamp texts, as the specification words them -/

/-- A text has a shape when it has the length of the shape, shows a decimal
digit wherever the shape shows `#`, and agrees with the shape everywhere
else. -/
def shapeMatches : List Char → List Char → Bool
  | [], [] => true
  | p :: shape, c :: text => (if p = '#' then isDigitChar c else c = p) && shapeMatches shape text
  | _, _ => false

/-- The number written by the `len` digits of a text that start at position
`start`. -/
def fieldAt (text : List Char) (start len : Nat) : Int :=
  Int.ofNat (digitsVal ((text.drop start).take len))

/-- The fields of a text `YYYY-MM-DDTHH:MM:SS...` name a day of the calendar
and a time of the day: month 1 to 12, a day of that month of that year, hour
up to 23, minute and second up to 59. -/
def validFields (text : List Char) : Prop :=
  1 ≤ fieldAt text 5 2 ∧ fieldAt text 5 2 ≤ 12 ∧
  1 ≤ fieldAt text 8 2 ∧ fieldAt text 8 2 ≤ daysIn (fieldAt text 5 2) (fieldAt text 0 4) ∧
  fieldAt text 11 2 ≤ 23 ∧ fieldAt text 14 2 ≤ 59 ∧ fieldAt text 17 2 ≤ 59

instance (text : List Char) : Decidable (validFields text) := by
  unfold validFields; exact inferInstance

/-- A valid timestamp in the source format `YYYY-MM-DDTHH:MM:SS`: second
precision, no fractional seconds, no time zone suffix. -/
def isSourceTimestamp (s : String) : Prop :=
  shapeMatches "####-##-##T##:##:##".data s.data = true ∧ validFields s.data

instance (s : String) : Decidable (isSourceTimestamp s) := by
  unfold isSourceTimestamp; exact inferInstance

/-- Reading of a timestamp in the output format `YYYY-MM-DDTHH:MM:SS.mmmZ`
as a UTC instant; `none` for any other text. -/
def readTimestamp (s : String) : Option Time :=
  if shapeMatches "####-##-##T##:##:##.###Z".data s.data = true ∧ validFields s.data then
    some (Date (fieldAt s.data 0 4) (fieldAt s.data 5 2) (fieldAt s.data 8 2)
      (fieldAt s.data 11 2) (fieldAt s.data 14 2) (fieldAt s.data 17 2)
      (digitsVal ((s.data.drop 20).take 3) * 1000000))
  else none

/-- A source account that expires one day after the epoch. -/
def dayAfterEpochUser : MarzbanUser :=
  { blankUser with Expire := 86400, CreatedAt := "2024-02-29T10:00:00" }

/-! ## Field-by-field reading of the request builder -/

section Fields

variable (tbl : CaseTable) (SanitizeUsername : String → String) (p : ProcessedUser)
  (preferredStrategy : String) (preserveStatus preserveSubHash preserveInbounds : Bool)
  (remnawaveInbounds : String → Option String)

theorem request_TrafficLimitBytes :
    (p.ToCreateUserRequest tbl SanitizeUsername preferredStrategy preserveStatus
      preserveSubHash preserveInbounds remnawaveInbounds).1.TrafficLimitBytes
      = p.RemainingVolume := by
  cases preserveInbounds <;> rfl

theorem request_TrafficLimitStrategy :
    (p.ToCreateUserRequest tbl SanitizeUsername preferredStrategy preserveStatus
      preserveSubHash preserveInbounds remnawaveInbounds).1.TrafficLimitStrategy
      = if preferredStrategy ≠ "" then preferredStrategy
        else if ToUpper tbl p.DataLimitResetStrategy = "YEAR" then "NO_RESET"
        else ToUpper tbl p.DataLimitResetStrategy := by
  cases preserveInbounds <;> rfl

theorem request_Status :
    (p.ToCreateUserRequest tbl SanitizeUsername preferredStrategy preserveStatus
      preserveSubHash preserveInbounds remnawaveInbounds).1.Status
      = if preserveStatus = true ∧ ToLower tbl p.Status ≠ "on_hold" then ToUpper tbl p.Status
        else "ACTIVE" := by
  cases preserveInbounds <;> rfl

theorem request_ActiveUserInbounds :
    (p.ToCreateUserRequest tbl SanitizeUsername preferredStrategy preserveStatus
      preserveSubHash preserveInbounds remnawaveInbounds).1.ActiveUserInbounds
      = if preserveInbounds = true then
          (p.InboundTags.foldl (resolveInbound remnawaveInbounds) ([], [])).1
        else [] := by
  cases preserveInbounds <;> rfl

theorem request_ActivateAllInbounds :
    (p.ToCreateUserRequest tbl SanitizeUsername preferredStrategy preserveStatus
      preserveSubHash preserveInbounds remnawaveInbounds).1.ActivateAllInbounds
      = !preserveInbounds := by
  cases preserveInbounds <;> rfl

theorem request_ShortUUID :
    (p.ToCreateUserRequest tbl SanitizeUsername preferredStrategy preserveStatus
      preserveSubHash preserveInbounds remnawaveInbounds).1.ShortUUID
      = if preserveSubHash = true ∧ p.SubscriptionHash ≠ "" then strPtr p.SubscriptionHash
        else none := by
  cases preserveInbounds <;> rfl

theorem request_TrojanPassword :
    (p.ToCreateUserRequest tbl SanitizeUsername preferredStrategy preserveStatus
      preserveSubHash preserveInbounds remnawaveInbounds).1.TrojanPassword
      = if p.TrojanPassword ≠ "" then strPtr p.TrojanPassword else none := by
  cases preserveInbounds <;> rfl

theorem request_VlessUUID :
    (p.ToCreateUserRequest tbl SanitizeUsername preferredStrategy preserveStatus
      preserveSubHash preserveInbounds remnawaveInbounds).1.VlessUUID
      = if p.VlessID ≠ "" then strPtr p.VlessID else none := by
  cases preserveInbounds <;> rfl

theorem request_SsPassword :
    (p.ToCreateUserRequest tbl SanitizeUsername preferredStrategy preserveStatus
      preserveSubHash preserveInbounds remnawaveInbounds).1.SsPassword
      = if p.ShadowsocksPassword ≠ "" then strPtr p.ShadowsocksPassword else none := by
  cases preserveInbounds <;> rfl

theorem request_log :
    (p.ToCreateUserRequest tbl SanitizeUsername preferredStrategy preserveStatus
      preserveSubHash preserveInbounds remnawaveInbounds).2
      = if preserveInbounds = true then
          (p.InboundTags.foldl (resolveInbound remnawaveInbounds) ([], [])).2
        else [] := by
  cases preserveInbounds <;> rfl

end Fields

/-- The loop over the inbound tags, started from any state: the identifiers of
the matched tags are appended in order, and one line is logged for every
unmatched tag. -/
theorem foldl_resolveInbound (m : String → Option String) (tags : List String)
    (state : List String × List String) :
    tags.foldl (resolveInbound m) state
      = (state.1 ++ tags.filterMap m,
         state.2 ++ (tags.filter (fun tag => (m tag).isNone)).map inboundWarning) := by
  induction tags generalizing state with
  | nil => simp
  | cons tag rest ih =>
    rw [List.foldl_cons, ih]
    cases hm : m tag with
    | none => simp [resolveInbound, hm, List.filterMap_cons]
    | some uuid => simp [resolveInbound, hm, List.filterMap_cons]

/-- The remaining volume computed by the normalizer: the wrapped difference,
clamped at zero. -/
theorem process_RemainingVolume (rt : Runtime) (u : MarzbanUser) :
    (u.Process rt).RemainingVolume
      = if wrapInt64 (u.DataLimit - u.UsedTraffic) < 0 then 0
        else wrapInt64 (u.DataLimit - u.UsedTraffic) := rfl

/-- The wrapped value of an exact integer that is in range is the integer. -/
theorem wrapInt64_of_isInt64 (x : Int) (h : isInt64 x) : wrapInt64 x = x := by
  unfold isInt64 minInt64 maxInt64 at h
  unfold wrapInt64
  omega

/-- The difference of two non-negative `int64` values is an `int64` value. -/
theorem isInt64_sub_of_nonneg (a b : Int) (ha : isInt64 a) (hb : isInt64 b)
    (ha0 : 0 ≤ a) (hb0 : 0 ≤ b) : isInt64 (a - b) := by
  unfold isInt64 minInt64 maxInt64 at *
  omega

/-- Every wrapped value is in range. -/
theorem isInt64_wrapInt64 (x : Int) : isInt64 (wrapInt64 x) := by
  unfold isInt64 minInt64 maxInt64 wrapInt64
  omega

/-! ## Runes and letter case -/

/-- Below the surrogate range `Char.ofNat` keeps the code point. -/
theorem toNat_ofNat_small (n : Nat) (h : n < 55296) : (Char.ofNat n).toNat = n := by
  have hv : n.isValidChar := Or.inl h
  simp only [Char.ofNat, hv, dite_true]
  show (Char.ofNatAux n hv).val.toNat = n
  simp only [Char.ofNatAux]
  simp [UInt32.toNat]

/-- Runes with the same letter up to case have the same upper-case form. -/
theorem sameLetter_unicodeToUpper (tbl : CaseTable) (a b : Char)
    (h : sameLetter a b = true) : unicodeToUpper tbl a = unicodeToUpper tbl b := by
  unfold sameLetter at h
  rw [decide_eq_true_eq] at h
  rcases h with h | ⟨h1, h2, h3⟩ | ⟨h1, h2, h3⟩
  · rw [h]
  · have ha : unicodeToUpper tbl a = Char.ofNat (a.toNat - 32) := by
      unfold unicodeToUpper
      rw [if_pos (by omega), if_pos ⟨h1, h2⟩]
    have hb : unicodeToUpper tbl b = b := by
      unfold unicodeToUpper
      rw [if_pos (by omega), if_neg (by omega)]
    rw [ha, hb, ← h3, Nat.add_sub_cancel, Char.ofNat_toNat]
  · have hb : unicodeToUpper tbl b = Char.ofNat (b.toNat - 32) := by
      unfold unicodeToUpper
      rw [if_pos (by omega), if_pos ⟨h1, h2⟩]
    have ha : unicodeToUpper tbl a = a := by
      unfold unicodeToUpper
      rw [if_pos (by omega), if_neg (by omega)]
    rw [ha, hb, ← h3, Nat.add_sub_cancel, Char.ofNat_toNat]

/-- Runes with the same letter up to case have the same lower-case form. -/
theorem sameLetter_unicodeToLower (tbl : CaseTable) (a b : Char)
    (h : sameLetter a b = true) : unicodeToLower tbl a = unicodeToLower tbl b := by
  unfold sameLetter at h
  rw [decide_eq_true_eq] at h
  rcases h with h | ⟨h1, h2, h3⟩ | ⟨h1, h2, h3⟩
  · rw [h]
  · have ha : unicodeToLower tbl a = a := by
      unfold unicodeToLower
      rw [if_pos (by omega), if_neg (by omega)]
    have hb : unicodeToLower tbl b = Char.ofNat (b.toNat + 32) := by
      unfold unicodeToLower
      rw [if_pos (by omega), if_pos (by omega)]
    rw [ha, hb, h3, Char.ofNat_toNat]
  · have hb : unicodeToLower tbl b = b := by
      unfold unicodeToLower
      rw [if_pos (by omega), if_neg (by omega)]
    have ha : unicodeToLower tbl a = Char.ofNat (a.toNat + 32) := by
      unfold unicodeToLower
      rw [if_pos (by omega), if_pos (by omega)]
    rw [ha, hb, h3, Char.ofNat_toNat]

/-- A rune whose upper-case form is an ASCII rune other than `I` and `S` is
that rune up to letter case. -/
theorem sameLetter_of_unicodeToUpper (tbl : CaseTable) (c w : Char)
    (h : unicodeToUpper tbl c = w) (hw : w.toNat < 128) (hI : w ≠ 'I') (hS : w ≠ 'S') :
    sameLetter c w = true := by
  unfold sameLetter
  rw [decide_eq_true_eq]
  unfold unicodeToUpper at h
  split_ifs at h with h1 h2
  · right; left
    have := congrArg Char.toNat h
    rw [toNat_ofNat_small _ (by omega)] at this
    omega
  · left; exact h
  · exfalso
    rw [← h] at hw
    rcases tbl.upper_ascii c (by omega) hw with ⟨_, h3⟩ | ⟨_, h3⟩
    · exact hI (h ▸ h3)
    · exact hS (h ▸ h3)

/-- A rune whose lower-case form is an ASCII rune other than `i` and `k` is
that rune up to letter case. -/
theorem sameLetter_of_unicodeToLower (tbl : CaseTable) (c w : Char)
    (h : unicodeToLower tbl c = w) (hw : w.toNat < 128) (hi : w ≠ 'i') (hk : w ≠ 'k') :
    sameLetter c w = true := by
  unfold sameLetter
  rw [decide_eq_true_eq]
  unfold unicodeToLower at h
  split_ifs at h with h1 h2
  · right; right
    have := congrArg Char.toNat h
    rw [toNat_ofNat_small _ (by omega)] at this
    omega
  · left; exact h
  · exfalso
    rw [← h] at hw
    rcases tbl.lower_ascii c (by omega) hw with ⟨_, h3⟩ | ⟨_, h3⟩
    · exact hi (h ▸ h3)
    · exact hk (h ▸ h3)

theorem sameLetters_map_upper (tbl : CaseTable) (s t : List Char)
    (h : sameLetters s t = true) :
    s.map (unicodeToUpper tbl) = t.map (unicodeToUpper tbl) := by
  induction s generalizing t with
  | nil => cases t with
    | nil => rfl
    | cons b t => simp [sameLetters] at h
  | cons a s ih => cases t with
    | nil => simp [sameLetters] at h
    | cons b t =>
      simp only [sameLetters, Bool.and_eq_true] at h
      simp only [List.map_cons, sameLetter_unicodeToUpper tbl a b h.1, ih t h.2]

theorem sameLetters_map_lower (tbl : CaseTable) (s t : List Char)
    (h : sameLetters s t = true) :
    s.map (unicodeToLower tbl) = t.map (unicodeToLower tbl) := by
  induction s generalizing t with
  | nil => cases t with
    | nil => rfl
    | cons b t => simp [sameLetters] at h
  | cons a s ih => cases t with
    | nil => simp [sameLetters] at h
    | cons b t =>
      simp only [sameLetters, Bool.and_eq_true] at h
      simp only [List.map_cons, sameLetter_unicodeToLower tbl a b h.1, ih t h.2]

theorem sameLetters_of_map_upper (tbl : CaseTable) (s w : List Char)
    (h : s.map (unicodeToUpper tbl) = w)
    (hw : ∀ x ∈ w, x.toNat < 128 ∧ x ≠ 'I' ∧ x ≠ 'S') : sameLetters s w = true := by
  induction s generalizing w with
  | nil => subst h; rfl
  | cons a s ih =>
    subst h
    simp only [List.map_cons, sameLetters, Bool.and_eq_true]
    have ha := hw (unicodeToUpper tbl a) (by simp)
    exact ⟨sameLetter_of_unicodeToUpper tbl a _ rfl ha.1 ha.2.1 ha.2.2,
      ih _ rfl (fun x hx => hw x (by simp [hx]))⟩

theorem sameLetters_of_map_lower (tbl : CaseTable) (s w : List Char)
    (h : s.map (unicodeToLower tbl) = w)
    (hw : ∀ x ∈ w, x.toNat < 128 ∧ x ≠ 'i' ∧ x ≠ 'k') : sameLetters s w = true := by
  induction s generalizing w with
  | nil => subst h; rfl
  | cons a s ih =>
    subst h
    simp only [List.map_cons, sameLetters, Bool.and_eq_true]
    have ha := hw (unicodeToLower tbl a) (by simp)
    exact ⟨sameLetter_of_unicodeToLower tbl a _ rfl ha.1 ha.2.1 ha.2.2,
      ih _ rfl (fun x hx => hw x (by simp [hx]))⟩

/-- The upper-case form of the word `year`, whatever the case table. -/
theorem toUpper_year (tbl : CaseTable) : ToUpper tbl "year" = "YEAR" := rfl

/-- The lower-case form of `ON_HOLD`, whatever the case table. -/
theorem toLower_ON_HOLD (tbl : CaseTable) : ToLower tbl "ON_HOLD" = "on_hold" := rfl

/-- The lower-case form of `on_hold`, whatever the case table. -/
theorem toLower_on_hold (tbl : CaseTable) : ToLower tbl "on_hold" = "on_hold" := rfl

/-- A string in any letter casing of a word has the upper-case form of the
word. -/
theorem toUpper_of_isCasingOf (tbl : CaseTable) (s word : String)
    (h : isCasingOf s word) : ToUpper tbl s = ToUpper tbl word := by
  unfold ToUpper
  rw [sameLetters_map_upper tbl _ _ h]

/-- A string in any letter casing of a word has the lower-case form of the
word. -/
theorem toLower_of_isCasingOf (tbl : CaseTable) (s word : String)
    (h : isCasingOf s word) : ToLower tbl s = ToLower tbl word := by
  unfold ToLower
  rw [sameLetters_map_lower tbl _ _ h]

/-- The comparison made by the code, `strings.ToLower(s) != "on_hold"`, is
case-insensitive inequality with `on_hold`. -/
theorem toLower_eq_on_hold_iff (tbl : CaseTable) (s : String) :
    ToLower tbl s = "on_hold" ↔ isCasingOf s "on_hold" := by
  constructor
  · intro h
    have hd : s.data.map (unicodeToLower tbl) = "on_hold".data := congrArg String.data h
    exact sameLetters_of_map_lower tbl _ _ hd (by decide)
  · intro h
    rw [toLower_of_isCasingOf tbl s _ h, toLower_on_hold]

/-- A string whose upper-case form is `ON_HOLD` is `on_hold` in some letter
casing. -/
theorem isCasingOf_of_toUpper_ON_HOLD (tbl : CaseTable) (s : String)
    (h : ToUpper tbl s = "ON_HOLD") : isCasingOf s "on_hold" := by
  have hd : s.data.map (unicodeToUpper tbl) = "ON_HOLD".data := congrArg String.data h
  have h1 : sameLetters s.data "ON_HOLD".data = true :=
    sameLetters_of_map_upper tbl _ _ hd (by decide)
  rw [← toLower_eq_on_hold_iff tbl]
  unfold ToLower
  rw [sameLetters_map_lower tbl _ _ h1]
  exact toLower_ON_HOLD tbl

/-! ## Splitting and flattening -/

/-- The pieces of a split end in a piece without the separator; the text
before that piece is empty when it is the only piece and ends with the
separator otherwise. -/
theorem splitRunes_last (sep : Char) (l : List Char) :
    ∃ init last pre, splitRunes sep l = init ++ [last] ∧ sep ∉ last ∧ l = pre ++ last ∧
      (init = [] → pre = []) ∧ (init ≠ [] → ∃ front, pre = front ++ [sep]) := by
  induction l with
  | nil => exact ⟨[], [], [], rfl, by simp, rfl, fun _ => rfl, fun h => absurd rfl h⟩
  | cons c cs ih =>
    obtain ⟨init, last, pre, hsplit, hlast, hcs, hnil, hcons⟩ := ih
    by_cases hc : c = sep
    · refine ⟨[] :: init, last, c :: pre, ?_, hlast, ?_, ?_, ?_⟩
      · simp [splitRunes, hc, hsplit]
      · simp [hcs]
      · intro h; simp at h
      · intro _
        by_cases hi : init = []
        · exact ⟨[], by simp [hnil hi, hc]⟩
        · obtain ⟨front, hfront⟩ := hcons hi
          exact ⟨c :: front, by simp [hfront]⟩
    · cases init with
      | nil =>
        refine ⟨[], c :: last, [], ?_, ?_, ?_, fun _ => rfl, fun h => absurd rfl h⟩
        · simp [splitRunes, hc, hsplit]
        · simp only [List.mem_cons, not_or]
          exact ⟨fun h => hc h.symm, hlast⟩
        · simp [hcs, hnil rfl]
      | cons first others =>
        obtain ⟨front, hfront⟩ := hcons (by simp)
        refine ⟨(c :: first) :: others, last, c :: pre, ?_, hlast, ?_, ?_, ?_⟩
        · simp [splitRunes, hc, hsplit]
        · simp [hcs]
        · intro h; simp at h
        · intro _
          exact ⟨c :: front, by simp [hfront]⟩

/-- The last element of `strings.Split(s, "/")`, read by its index. -/
theorem SplitSlash_last (s : String) :
    ∃ pre : List Char,
      s.data = pre ++ ((SplitSlash s).getD ((SplitSlash s).length - 1) "").data ∧
      '/' ∉ ((SplitSlash s).getD ((SplitSlash s).length - 1) "").data ∧
      (pre = [] ∨ ∃ front, pre = front ++ ['/']) ∧ 0 < (SplitSlash s).length := by
  obtain ⟨init, last, pre, hsplit, hlast, hs, hnil, hcons⟩ := splitRunes_last '/' s.data
  have hidx : (SplitSlash s).getD ((SplitSlash s).length - 1) "" = String.mk last := by
    simp [SplitSlash, hsplit, List.getD_eq_getElem?_getD]
  rw [hidx]
  refine ⟨pre, hs, hlast, ?_, by simp [SplitSlash, hsplit]⟩
  by_cases hi : init = []
  · exact Or.inl (hnil hi)
  · exact Or.inr (hcons hi)

/-- The subscription hash computed by the normalizer. -/
theorem process_SubscriptionHash (rt : Runtime) (u : MarzbanUser) :
    (u.Process rt).SubscriptionHash
      = if u.SubscriptionURL ≠ "" then
          if (SplitSlash u.SubscriptionURL).length > 0 then
            (SplitSlash u.SubscriptionURL).getD ((SplitSlash u.SubscriptionURL).length - 1) ""
          else ""
        else "" := rfl

/-- The expiry text computed by the normalizer. -/
theorem process_Expire (rt : Runtime) (u : MarzbanUser) :
    (u.Process rt).Expire
      = Format (if u.Expire > 0 then Unix u.Expire else Date 2099 12 31 15 13 22 214000000) :=
  rfl

/-- The creation text computed by the normalizer. -/
theorem process_CreatedAt (rt : Runtime) (u : MarzbanUser) :
    (u.Process rt).CreatedAt
      = Format (match Parse u.CreatedAt with
          | some t => t
          | none => rt.now) := rfl

/-- The loop that combines the inbound groups, started from any list. -/
theorem foldl_append_groups (groups : List (String × List String)) (start : List String) :
    groups.foldl (fun tags entry => tags ++ entry.2) start
      = start ++ (groups.map Prod.snd).flatten := by
  induction groups generalizing start with
  | nil => simp
  | cons g rest ih => simp [List.foldl_cons, ih]

/-- The inbound tags computed by the normalizer: the tag lists of the groups
in the order the `range` loop visits them. -/
theorem process_InboundTags (rt : Runtime) (u : MarzbanUser) :
    (u.Process rt).InboundTags = ((rt.rangeOrder u.Inbounds).map Prod.snd).flatten := by
  show (rt.rangeOrder u.Inbounds).foldl (fun tags entry => tags ++ entry.2) [] = _
  rw [foldl_append_groups]
  rfl

/-! ## Two runs of the transform -/

/-- A rearrangement of a list with at most one element is the list. -/
theorem eq_of_perm_of_length_le_one {α : Type} (l₁ l₂ : List α) (h : l₁.Perm l₂)
    (hlen : l₂.length ≤ 1) : l₁ = l₂ := by
  cases l₂ with
  | nil => exact List.Perm.eq_nil h
  | cons a rest =>
    cases rest with
    | nil => exact List.perm_singleton.mp h
    | cons b rest2 => simp at hlen

/-- Two runs of the normalizer on an account whose creation time parses
differ at most in the inbound tags. -/
theorem process_runs (rt₁ rt₂ : Runtime) (u : MarzbanUser)
    (h : (Parse u.CreatedAt).isSome = true) :
    u.Process rt₂ = { u.Process rt₁ with InboundTags := (u.Process rt₂).InboundTags } := by
  obtain ⟨t, ht⟩ := Option.isSome_iff_exists.mp h
  simp only [MarzbanUser.Process, ht]

/-- The request built from an account with other inbound tags differs at
most in `ActiveUserInbounds`. -/
theorem request_with_tags (tbl : CaseTable) (SanitizeUsername : String → String)
    (p : ProcessedUser) (tags : List String) (preferredStrategy : String)
    (preserveStatus preserveSubHash preserveInbounds : Bool)
    (m : String → Option String) :
    (ProcessedUser.ToCreateUserRequest tbl SanitizeUsername { p with InboundTags := tags }
        preferredStrategy preserveStatus preserveSubHash preserveInbounds m).1
      = { (p.ToCreateUserRequest tbl SanitizeUsername preferredStrategy preserveStatus
            preserveSubHash preserveInbounds m).1 with
          ActiveUserInbounds := if preserveInbounds = true then tags.filterMap m else [] } := by
  cases preserveInbounds
  · rfl
  · simp only [ProcessedUser.ToCreateUserRequest, if_true, foldl_resolveInbound]
    rfl

/-! ## Decimal digits -/

/-- The code point of a digit rune. -/
theorem digitChar_toNat (n : Nat) : (digitChar n).toNat = 48 + n % 10 := by
  unfold digitChar
  exact toNat_ofNat_small _ (by omega)

/-- A digit rune is a digit. -/
theorem isDigitChar_digitChar (n : Nat) : isDigitChar (digitChar n) = true := by
  unfold isDigitChar
  rw [digitChar_toNat, decide_eq_true_eq]
  omega

/-- The digit rune of the value of a digit is the digit. -/
theorem digitChar_of_isDigitChar (c : Char) (h : isDigitChar c = true) :
    digitChar (c.toNat - 48) = c := by
  unfold isDigitChar at h
  rw [decide_eq_true_eq] at h
  unfold digitChar
  rw [show 48 + (c.toNat - 48) % 10 = c.toNat by omega, Char.ofNat_toNat]

/-- One step of writing a number in decimal. -/
theorem natDigits_succ (fuel n : Nat) :
    natDigits (fuel + 1) n
      = if n < 10 then [digitChar n] else natDigits fuel (n / 10) ++ [digitChar n] := rfl

/-- The digit rune of zero. -/
theorem digitChar_zero : digitChar 0 = '0' := by decide

/-- A number below 100 written with two digits. -/
theorem appendInt_two (x : Int) (h0 : 0 ≤ x) (h1 : x < 100) :
    appendInt x 2 = [digitChar (x.toNat / 10), digitChar x.toNat] := by
  obtain ⟨n, rfl⟩ := Int.eq_ofNat_of_zero_le h0
  have hn : n < 100 := by omega
  simp only [appendInt, Int.natAbs_ofNat, Int.toNat_ofNat]
  rw [if_neg (by omega)]
  by_cases h10 : n < 10
  · rw [natDigits_succ, if_pos h10, show n / 10 = 0 by omega, digitChar_zero]
    rfl
  · obtain ⟨k, rfl⟩ : ∃ k, n = k + 1 := ⟨n - 1, by omega⟩
    rw [natDigits_succ, if_neg h10, natDigits_succ, if_pos (by omega)]
    rfl

/-- A number below 10 in decimal. -/
theorem natDigits_one (fuel n : Nat) (h : n < 10) :
    natDigits (fuel + 1) n = [digitChar n] := by
  rw [natDigits_succ, if_pos h]

/-- A number from 10 to 99 in decimal. -/
theorem natDigits_two (fuel n : Nat) (h10 : 10 ≤ n) (h : n < 100) :
    natDigits (fuel + 2) n = [digitChar (n / 10), digitChar n] := by
  rw [natDigits_succ, if_neg (by omega), natDigits_one fuel (n / 10) (by omega)]
  rfl

/-- A number from 100 to 999 in decimal. -/
theorem natDigits_three (fuel n : Nat) (h100 : 100 ≤ n) (h : n < 1000) :
    natDigits (fuel + 3) n = [digitChar (n / 100), digitChar (n / 10), digitChar n] := by
  rw [natDigits_succ, if_neg (by omega), natDigits_two fuel (n / 10) (by omega) (by omega),
    Nat.div_div_eq_div_mul]
  rfl

/-- A number from 1000 to 9999 in decimal. -/
theorem natDigits_four (fuel n : Nat) (h1000 : 1000 ≤ n) (h : n < 10000) :
    natDigits (fuel + 4) n
      = [digitChar (n / 1000), digitChar (n / 100), digitChar (n / 10), digitChar n] := by
  rw [natDigits_succ, if_neg (by omega),
    natDigits_three fuel (n / 10) (by omega) (by omega), Nat.div_div_eq_div_mul,
    Nat.div_div_eq_div_mul]
  rfl

/-- A number below 10000 written with four digits. -/
theorem appendInt_four (x : Int) (h0 : 0 ≤ x) (h1 : x < 10000) :
    appendInt x 4 = [digitChar (x.toNat / 1000), digitChar (x.toNat / 100),
      digitChar (x.toNat / 10), digitChar x.toNat] := by
  obtain ⟨n, rfl⟩ := Int.eq_ofNat_of_zero_le h0
  have hn : n < 10000 := by omega
  simp only [appendInt, Int.natAbs_ofNat, Int.toNat_ofNat]
  rw [if_neg (by omega)]
  by_cases h10 : n < 10
  · rw [natDigits_one n n h10, show n / 1000 = 0 by omega, show n / 100 = 0 by omega,
      show n / 10 = 0 by omega, digitChar_zero]
    rfl
  by_cases h100 : n < 100
  · obtain ⟨k, rfl⟩ : ∃ k, n = k + 1 := ⟨n - 1, by omega⟩
    rw [natDigits_two k (k + 1) (by omega) h100, show (k + 1) / 1000 = 0 by omega,
      show (k + 1) / 100 = 0 by omega, digitChar_zero]
    rfl
  by_cases h1000 : n < 1000
  · obtain ⟨k, rfl⟩ : ∃ k, n = k + 2 := ⟨n - 2, by omega⟩
    rw [natDigits_three k (k + 2) (by omega) h1000, show (k + 2) / 1000 = 0 by omega,
      digitChar_zero]
    rfl
  · obtain ⟨k, rfl⟩ : ∃ k, n = k + 3 := ⟨n - 3, by omega⟩
    rw [natDigits_four k (k + 3) (by omega) hn]
    rfl

/-- The nanoseconds of a whole second, cut to milliseconds. -/
theorem millis_zero :
    (appendInt (Int.ofNat 0) 9).take ((appendInt (Int.ofNat 0) 9).length - 6) = ['0', '0', '0'] := by
  decide

/-- The value of a two-digit field. -/
theorem digitsVal_two (a b : Char) :
    digitsVal [a, b] = (a.toNat - 48) * 10 + (b.toNat - 48) := by
  simp [digitsVal]

/-- The value of a four-digit field. -/
theorem digitsVal_four (a b c d : Char) :
    digitsVal [a, b, c, d]
      = (a.toNat - 48) * 1000 + (b.toNat - 48) * 100 + (c.toNat - 48) * 10 + (d.toNat - 48) := by
  simp only [digitsVal, List.foldl_cons, List.foldl_nil]
  ring

/-- The value of a digit rune. -/
theorem digitChar_val (n : Nat) : (digitChar n).toNat - 48 = n % 10 := by
  rw [digitChar_toNat]; omega

/-! ## The calendar -/

/-- Year of the era from the day of the era: when the day of the era splits
into century `C`, four-year cycle `q`, year `k` of the cycle and day `t` of the
cycle, the year is `100 C + 4 q + k`. -/
theorem yearOfEra_eq (doe C q k t : Int) (hC0 : 0 ≤ C) (hC3 : C ≤ 3) (hq0 : 0 ≤ q)
    (hq : q ≤ 24) (hk0 : 0 ≤ k) (hk3 : k ≤ 3) (hdoe : doe = 36524 * C + 1461 * q + t)
    (ht0 : 365 * k ≤ t) (ht1 : t ≤ 365 * k + 364 ∨ (k = 3 ∧ t = 1460))
    (hlast : t = 1460 → q = 24 → C = 3) :
    (doe - doe / 1460 + doe / 36524 - doe / 146096) / 365 = 100 * C + 4 * q + k := by
  have hd : doe / 1460 = 25 * C + q + (24 * C + q + t) / 1460 := by omega
  have hce : doe / 36524 - doe / 146096 = C := by
    by_cases hl : q = 24 ∧ t = 1460
    · have : C = 3 := hlast hl.2 hl.1
      omega
    · have h1 : 1461 * q + t < 36524 := by omega
      omega
  have hnum : doe - doe / 1460 + doe / 36524 - doe / 146096
      = 365 * (100 * C + 4 * q) + (t - (24 * C + q + t) / 1460) := by omega
  rw [hnum]
  have hcut : 365 * k ≤ t - (24 * C + q + t) / 1460 ∧
      t - (24 * C + q + t) / 1460 ≤ 365 * k + 364 := by
    omega
  omega

/-- Every day of an era splits into century, four-year cycle, year of the
cycle and day of the cycle. -/
theorem dayOfEra_split (doe : Int) (h0 : 0 ≤ doe) (h1 : doe ≤ 146096) :
    ∃ C q k t : Int, 0 ≤ C ∧ C ≤ 3 ∧ 0 ≤ q ∧ q ≤ 24 ∧ 0 ≤ k ∧ k ≤ 3 ∧
      doe = 36524 * C + 1461 * q + t ∧ 365 * k ≤ t ∧
      (t ≤ 365 * k + 364 ∨ (k = 3 ∧ t = 1460)) ∧ (t = 1460 → q = 24 → C = 3) := by
  refine ⟨min (doe / 36524) 3, (doe - 36524 * min (doe / 36524) 3) / 1461,
    min ((doe - 36524 * min (doe / 36524) 3) % 1461 / 365) 3,
    (doe - 36524 * min (doe / 36524) 3) % 1461, ?_, ?_, ?_, ?_, ?_, ?_, ?_, ?_, ?_, ?_⟩ <;> omega

/-- The first day of year `100 C + 4 q + k` of an era is day
`36524 C + 1461 q + 365 k` of the era. -/
theorem dayOfYear_eq (C q k t : Int) (hq0 : 0 ≤ q) (hq : q ≤ 24) (hk0 : 0 ≤ k)
    (hk3 : k ≤ 3) :
    36524 * C + 1461 * q + t
      - (365 * (100 * C + 4 * q + k) + (100 * C + 4 * q + k) / 4 - (100 * C + 4 * q + k) / 100)
      = t - 365 * k := by omega

/-- The date computed from a day count, read off the split of the day of the
era. -/
theorem civilFromDays_of_split (z era C q k t : Int) (hC0 : 0 ≤ C) (hC3 : C ≤ 3)
    (hq0 : 0 ≤ q) (hq : q ≤ 24) (hk0 : 0 ≤ k) (hk3 : k ≤ 3)
    (hz : z + 719468 = era * 146097 + (36524 * C + 1461 * q + t))
    (ht0 : 365 * k ≤ t) (ht1 : t ≤ 365 * k + 364 ∨ (k = 3 ∧ t = 1460))
    (hlast : t = 1460 → q = 24 → C = 3) :
    civilFromDays z =
      ((if (if (5 * (t - 365 * k) + 2) / 153 < 10 then (5 * (t - 365 * k) + 2) / 153 + 3
            else (5 * (t - 365 * k) + 2) / 153 - 9) ≤ 2
          then 100 * C + 4 * q + k + era * 400 + 1 else 100 * C + 4 * q + k + era * 400),
       (if (5 * (t - 365 * k) + 2) / 153 < 10 then (5 * (t - 365 * k) + 2) / 153 + 3
            else (5 * (t - 365 * k) + 2) / 153 - 9),
       t - 365 * k - (153 * ((5 * (t - 365 * k) + 2) / 153) + 2) / 5 + 1) := by
  have hera : (z + 719468) / 146097 = era := by omega
  have hdoe : z + 719468 - era * 146097 = 36524 * C + 1461 * q + t := by omega
  have hyoe := yearOfEra_eq (36524 * C + 1461 * q + t) C q k t hC0 hC3 hq0 hq hk0 hk3 rfl
    ht0 ht1 hlast
  have hdoy := dayOfYear_eq C q k t hq0 hq hk0 hk3
  simp only [civilFromDays, hera, hdoe, hyoe, hdoy]

/-- Month and day from the day of the year counted from March: the result is
a day of the calendar, and counting back gives the day of the year. -/
theorem monthDay_valid (doy year : Int) (h0 : 0 ≤ doy) (h1 : doy ≤ 365)
    (hleap : doy = 365 → isLeap year = true) :
    1 ≤ (if (5 * doy + 2) / 153 < 10 then (5 * doy + 2) / 153 + 3
          else (5 * doy + 2) / 153 - 9) ∧
    (if (5 * doy + 2) / 153 < 10 then (5 * doy + 2) / 153 + 3
          else (5 * doy + 2) / 153 - 9) ≤ 12 ∧
    1 ≤ doy - (153 * ((5 * doy + 2) / 153) + 2) / 5 + 1 ∧
    doy - (153 * ((5 * doy + 2) / 153) + 2) / 5 + 1
      ≤ daysIn (if (5 * doy + 2) / 153 < 10 then (5 * doy + 2) / 153 + 3
          else (5 * doy + 2) / 153 - 9) year ∧
    (if (if (5 * doy + 2) / 153 < 10 then (5 * doy + 2) / 153 + 3
          else (5 * doy + 2) / 153 - 9) > 2
      then (if (5 * doy + 2) / 153 < 10 then (5 * doy + 2) / 153 + 3
          else (5 * doy + 2) / 153 - 9) - 3
      else (if (5 * doy + 2) / 153 < 10 then (5 * doy + 2) / 153 + 3
          else (5 * doy + 2) / 153 - 9) + 9) = (5 * doy + 2) / 153 := by
  have hmp : (5 * doy + 2) / 153 = 0 ∨ (5 * doy + 2) / 153 = 1 ∨ (5 * doy + 2) / 153 = 2 ∨
      (5 * doy + 2) / 153 = 3 ∨ (5 * doy + 2) / 153 = 4 ∨ (5 * doy + 2) / 153 = 5 ∨
      (5 * doy + 2) / 153 = 6 ∨ (5 * doy + 2) / 153 = 7 ∨ (5 * doy + 2) / 153 = 8 ∨
      (5 * doy + 2) / 153 = 9 ∨ (5 * doy + 2) / 153 = 10 ∨ (5 * doy + 2) / 153 = 11 := by
    omega
  rcases hmp with h | h | h | h | h | h | h | h | h | h | h | h
  case inr.inr.inr.inr.inr.inr.inr.inr.inr.inr.inr =>
    simp only [h, daysIn]
    norm_num
    refine ⟨by omega, ?_⟩
    by_cases hl : isLeap year = true
    · rw [if_pos hl]; omega
    · rw [if_neg hl]
      have hne : doy ≠ 365 := fun e => hl (hleap e)
      omega
  all_goals (simp only [h, daysIn]; norm_num; omega)

/-- The day count of a date, with the year counted from March and the month
counted from March named. -/
theorem daysFromCivil_of (year month day Y mp : Int)
    (hY : (if month ≤ 2 then year - 1 else year) = Y)
    (hmp : (if month > 2 then month - 3 else month + 9) = mp) :
    daysFromCivil year month day
      = Y / 400 * 146097
        + ((Y - Y / 400 * 400) * 365 + (Y - Y / 400 * 400) / 4 - (Y - Y / 400 * 400) / 100
          + ((153 * mp + 2) / 5 + day - 1)) - 719468 := by
  subst hY hmp
  rfl

/-- The year of the era `100 C + 4 q + k` taken out of a year counted from
March. -/
theorem eraYear_eq (era C q k : Int) (hC0 : 0 ≤ C) (hC3 : C ≤ 3) (hq0 : 0 ≤ q)
    (hq : q ≤ 24) (hk0 : 0 ≤ k) (hk3 : k ≤ 3) :
    (100 * C + 4 * q + k + era * 400) / 400 = era := by omega

/-- The leap day ends a year counted from March only before a leap year. -/
theorem leap_of_last_day (era C q k t : Int) (hq0 : 0 ≤ q)
    (hq : q ≤ 24) (ht1 : t ≤ 365 * k + 364 ∨ (k = 3 ∧ t = 1460))
    (hlast : t = 1460 → q = 24 → C = 3) (hdoy : t - 365 * k = 365) :
    isLeap (100 * C + 4 * q + k + era * 400 + 1) = true := by
  have hk : k = 3 ∧ t = 1460 := by omega
  simp only [isLeap, decide_eq_true_eq]
  by_cases h24 : q = 24
  · have hC : C = 3 := hlast hk.2 h24
    omega
  · omega

/-- The date computed from a day count is a date of the calendar, and counting
its days gives the day count back. -/
theorem civilFromDays_valid (z : Int) :
    1 ≤ (civilFromDays z).2.1 ∧ (civilFromDays z).2.1 ≤ 12 ∧
    1 ≤ (civilFromDays z).2.2 ∧
    (civilFromDays z).2.2 ≤ daysIn (civilFromDays z).2.1 (civilFromDays z).1 ∧
    daysFromCivil (civilFromDays z).1 (civilFromDays z).2.1 (civilFromDays z).2.2 = z := by
  obtain ⟨C, q, k, t, hC0, hC3, hq0, hq, hk0, hk3, hdoe, ht0, ht1, hlast⟩ :=
    dayOfEra_split (z + 719468 - (z + 719468) / 146097 * 146097) (by omega) (by omega)
  have hz : z + 719468 = (z + 719468) / 146097 * 146097 + (36524 * C + 1461 * q + t) := by
    omega
  rw [civilFromDays_of_split z _ C q k t hC0 hC3 hq0 hq hk0 hk3 hz ht0 ht1 hlast]
  generalize (z + 719468) / 146097 = era at hz ⊢
  have hdoy0 : 0 ≤ t - 365 * k := by omega
  have hdoy1 : t - 365 * k ≤ 365 := by omega
  have hera := eraYear_eq era C q k hC0 hC3 hq0 hq hk0 hk3
  have hdoyeq := dayOfYear_eq C q k t hq0 hq hk0 hk3
  have hleap := leap_of_last_day era C q k t hq0 hq ht1 hlast
  clear hdoe ht0 ht1 hlast
  generalize t - 365 * k = doy at *
  have hmd := monthDay_valid doy
    (if (if (5 * doy + 2) / 153 < 10 then (5 * doy + 2) / 153 + 3
          else (5 * doy + 2) / 153 - 9) ≤ 2
      then 100 * C + 4 * q + k + era * 400 + 1 else 100 * C + 4 * q + k + era * 400)
    hdoy0 hdoy1 (by
      intro h365
      have hmp : (5 * doy + 2) / 153 = 11 := by omega
      simp only [hmp]
      exact hleap h365)
  obtain ⟨hm1, hm12, hd1, hdmax, hmp⟩ := hmd
  refine ⟨hm1, hm12, hd1, hdmax, ?_⟩
  show daysFromCivil _ _ _ = z
  rw [daysFromCivil_of _ _ _ (100 * C + 4 * q + k + era * 400) ((5 * doy + 2) / 153)
    (by split_ifs <;> omega) hmp, hera]
  dsimp only
  rw [show 100 * C + 4 * q + k + era * 400 - era * 400 = 100 * C + 4 * q + k by omega]
  clear hmp hdmax hleap hm1 hm12 hera
  omega

/-- The day of the year counted from March of a day of the calendar: it lies
in the year, names its month, and is the leap day only in a leap year. -/
theorem dayOfYear_valid (month day year : Int) (hm1 : 1 ≤ month) (hm12 : month ≤ 12)
    (hd1 : 1 ≤ day) (hd : day ≤ daysIn month year) :
    0 ≤ (153 * (if month > 2 then month - 3 else month + 9) + 2) / 5 + day - 1 ∧
    (153 * (if month > 2 then month - 3 else month + 9) + 2) / 5 + day - 1 ≤ 365 ∧
    ((153 * (if month > 2 then month - 3 else month + 9) + 2) / 5 + day - 1 = 365 →
      isLeap year = true ∧ month = 2) ∧
    (5 * ((153 * (if month > 2 then month - 3 else month + 9) + 2) / 5 + day - 1) + 2) / 153
      = (if month > 2 then month - 3 else month + 9) ∧
    (if (if month > 2 then month - 3 else month + 9) < 10
      then (if month > 2 then month - 3 else month + 9) + 3
      else (if month > 2 then month - 3 else month + 9) - 9) = month := by
  have hm : month = 1 ∨ month = 2 ∨ month = 3 ∨ month = 4 ∨ month = 5 ∨ month = 6 ∨
      month = 7 ∨ month = 8 ∨ month = 9 ∨ month = 10 ∨ month = 11 ∨ month = 12 := by omega
  rcases hm with h | h | h | h | h | h | h | h | h | h | h | h
  case inr.inl =>
    subst h
    simp only [daysIn] at hd
    norm_num at hd ⊢
    by_cases hl : isLeap year = true
    · rw [if_pos hl] at hd
      exact ⟨by omega, by omega, fun _ => hl, by omega⟩
    · rw [if_neg hl] at hd
      exact ⟨by omega, by omega, fun h => by omega, by omega⟩
  all_goals (subst h; simp only [daysIn] at hd; norm_num at hd ⊢; omega)

/-- A year of an era splits into century, four-year cycle and year of the
cycle. -/
theorem yearOfEra_split (yoe : Int) (h0 : 0 ≤ yoe) (h1 : yoe ≤ 399) :
    0 ≤ yoe / 100 ∧ yoe / 100 ≤ 3 ∧ 0 ≤ yoe % 100 / 4 ∧ yoe % 100 / 4 ≤ 24 ∧
    0 ≤ yoe % 4 ∧ yoe % 4 ≤ 3 ∧ 100 * (yoe / 100) + 4 * (yoe % 100 / 4) + yoe % 4 = yoe := by
  omega

/-- A leap year seen from the year before, counted in its era. -/
theorem leap_year_split (Y : Int) (hleap : isLeap (Y + 1) = true) :
    (Y - Y / 400 * 400) % 4 = 3 ∧
    ((Y - Y / 400 * 400) % 100 / 4 = 24 → (Y - Y / 400 * 400) / 100 = 3) := by
  simp only [isLeap, decide_eq_true_eq] at hleap
  omega

/-- The date computed from the day count of a date of the calendar is that
date. -/
theorem civilFromDays_daysFromCivil (year month day : Int) (hm1 : 1 ≤ month)
    (hm12 : month ≤ 12) (hd1 : 1 ≤ day) (hd : day ≤ daysIn month year) :
    civilFromDays (daysFromCivil year month day) = (year, month, day) := by
  obtain ⟨hdoy0, hdoy1, hdoyleap, hmp, hmonth⟩ :=
    dayOfYear_valid month day year hm1 hm12 hd1 hd
  rw [daysFromCivil_of year month day _ _ rfl rfl]
  have hYear : (if month ≤ 2 then (if month ≤ 2 then year - 1 else year) + 1
      else (if month ≤ 2 then year - 1 else year)) = year := by
    split_ifs <;> omega
  have hY1 : month = 2 → (if month ≤ 2 then year - 1 else year) + 1 = year := by
    intro h2; rw [if_pos (by omega)]; omega
  generalize (if month ≤ 2 then year - 1 else year) = Y at *
  generalize (if month > 2 then month - 3 else month + 9) = mp at *
  generalize hdoy : (153 * mp + 2) / 5 + day - 1 = doy at *
  have hyoe0 : 0 ≤ Y - Y / 400 * 400 := by omega
  have hyoe1 : Y - Y / 400 * 400 ≤ 399 := by omega
  generalize hyoe : Y - Y / 400 * 400 = yoe at *
  obtain ⟨hC0, hC3, hq0, hq, hk0, hk3, hsplit⟩ := yearOfEra_split yoe hyoe0 hyoe1
  have hleapY : doy = 365 → yoe % 4 = 3 ∧ (yoe % 100 / 4 = 24 → yoe / 100 = 3) := by
    intro h365
    obtain ⟨hl, h2⟩ := hdoyleap h365
    have := leap_year_split Y (by rw [hY1 h2]; exact hl)
    rw [hyoe] at this
    exact this
  have hz : Y / 400 * 146097 + (yoe * 365 + yoe / 4 - yoe / 100 + doy) - 719468 + 719468
      = Y / 400 * 146097
        + (36524 * (yoe / 100) + 1461 * (yoe % 100 / 4) + (365 * (yoe % 4) + doy)) := by
    omega
  rw [civilFromDays_of_split _ (Y / 400) (yoe / 100) (yoe % 100 / 4) (yoe % 4)
    (365 * (yoe % 4) + doy) hC0 hC3 hq0 hq hk0 hk3 hz (by omega)
    (by
      by_cases h365 : doy = 365
      · exact Or.inr ⟨(hleapY h365).1, by omega⟩
      · exact Or.inl (by omega))
    (by
      intro ht hq24
      have h365 : doy = 365 := by omega
      exact (hleapY h365).2 hq24)]
  have ht : 365 * (yoe % 4) + doy - 365 * (yoe % 4) = doy := by omega
  have hYY : 100 * (yoe / 100) + 4 * (yoe % 100 / 4) + yoe % 4 + Y / 400 * 400 = Y := by
    omega
  simp only [ht, hmp, hmonth, hYY, hYear]
  rw [← hdoy]
  congr 2
  omega

/-! ## Writing and reading timestamps -/

/-- A digit rune depends only on the last decimal digit of its argument. -/
theorem digitChar_mod (n : Nat) : digitChar (n % 10) = digitChar n := by
  unfold digitChar
  rw [Nat.mod_mod]

/-- The text written for a whole second whose date has a year from 0 to
9999: 24 runes, every field with its fixed number of digits. -/
theorem format_data (sec y m d : Int) (hc : civilFromDays (sec / 86400) = (y, m, d))
    (hy0 : 0 ≤ y) (hy : y < 10000) (hm0 : 0 ≤ m) (hm : m < 100) (hd0 : 0 ≤ d)
    (hd : d < 100) :
    (Format ⟨sec, 0⟩).data =
      [digitChar (y.toNat / 1000), digitChar (y.toNat / 100), digitChar (y.toNat / 10),
        digitChar y.toNat, '-', digitChar (m.toNat / 10), digitChar m.toNat, '-',
        digitChar (d.toNat / 10), digitChar d.toNat, 'T',
        digitChar ((sec % 86400 / 3600).toNat / 10), digitChar (sec % 86400 / 3600).toNat, ':',
        digitChar ((sec % 86400 % 3600 / 60).toNat / 10),
        digitChar (sec % 86400 % 3600 / 60).toNat, ':',
        digitChar ((sec % 86400 % 60).toNat / 10), digitChar (sec % 86400 % 60).toNat,
        '.', '0', '0', '0', 'Z'] := by
  simp only [Format, hc, appendInt_four y hy0 hy, appendInt_two m hm0 hm,
    appendInt_two d hd0 hd, appendInt_two (sec % 86400 / 3600) (by omega) (by omega),
    appendInt_two (sec % 86400 % 3600 / 60) (by omega) (by omega),
    appendInt_two (sec % 86400 % 60) (by omega) (by omega), millis_zero]
  rfl

/-- Reading back a two-digit field. -/
theorem field_two (x : Int) (h0 : 0 ≤ x) (h1 : x < 100) :
    Int.ofNat (digitsVal [digitChar (x.toNat / 10), digitChar x.toNat]) = x := by
  obtain ⟨n, rfl⟩ := Int.eq_ofNat_of_zero_le h0
  rw [digitsVal_two, digitChar_val, digitChar_val, Int.toNat_ofNat]
  show ((n / 10 % 10 * 10 + n % 10 : Nat) : Int) = (n : Int)
  omega

/-- Reading back a four-digit field. -/
theorem field_four (x : Int) (h0 : 0 ≤ x) (h1 : x < 10000) :
    Int.ofNat (digitsVal [digitChar (x.toNat / 1000), digitChar (x.toNat / 100),
      digitChar (x.toNat / 10), digitChar x.toNat]) = x := by
  obtain ⟨n, rfl⟩ := Int.eq_ofNat_of_zero_le h0
  rw [digitsVal_four, digitChar_val, digitChar_val, digitChar_val, digitChar_val,
    Int.toNat_ofNat]
  show ((n / 1000 % 10 * 1000 + n / 100 % 10 * 100 + n / 10 % 10 * 10 + n % 10 : Nat) : Int)
    = (n : Int)
  omega

/-- The days before a year counted from March: bounds at the years 1968,
1969, 9999 and 10000. -/
theorem eraDays_bounds (Y : Int) :
    (Y ≤ 1968 → Y / 400 * 146097
      + ((Y - Y / 400 * 400) * 365 + (Y - Y / 400 * 400) / 4 - (Y - Y / 400 * 400) / 100)
      ≤ 718797) ∧
    (Y ≤ 1969 → Y / 400 * 146097
      + ((Y - Y / 400 * 400) * 365 + (Y - Y / 400 * 400) / 4 - (Y - Y / 400 * 400) / 100)
      ≤ 719162) ∧
    (9999 ≤ Y → 3652059 ≤ Y / 400 * 146097
      + ((Y - Y / 400 * 400) * 365 + (Y - Y / 400 * 400) / 4 - (Y - Y / 400 * 400) / 100)) ∧
    (10000 ≤ Y → 3652425 ≤ Y / 400 * 146097
      + ((Y - Y / 400 * 400) * 365 + (Y - Y / 400 * 400) / 4 - (Y - Y / 400 * 400) / 100)) := by
  have hc : (Y - Y / 400 * 400) / 100 = 0 ∨ (Y - Y / 400 * 400) / 100 = 1 ∨
      (Y - Y / 400 * 400) / 100 = 2 ∨ (Y - Y / 400 * 400) / 100 = 3 := by omega
  rcases hc with hc | hc | hc | hc <;> refine ⟨?_, ?_, ?_, ?_⟩ <;> omega

/-- The year of a day count from 1970-01-01 up to 9999-12-31. -/
theorem year_range (year month day : Int) (hm1 : 1 ≤ month) (hm12 : month ≤ 12)
    (hd1 : 1 ≤ day) (hd31 : day ≤ 31) (h0 : 0 ≤ daysFromCivil year month day)
    (h1 : daysFromCivil year month day < 2932897) : 1970 ≤ year ∧ year ≤ 9999 := by
  rw [daysFromCivil_of year month day _ _ rfl rfl] at h0 h1
  by_cases hm : month ≤ 2
  · rw [if_pos hm, if_neg (by omega)] at h0 h1
    obtain ⟨hb1, -, hb3, -⟩ := eraDays_bounds (year - 1)
    omega
  · rw [if_neg hm, if_pos (by omega)] at h0 h1
    obtain ⟨-, hb2, -, hb4⟩ := eraDays_bounds year
    omega

/-- The days of a month are at most 31. -/
theorem daysIn_le (month year : Int) : daysIn month year ≤ 31 := by
  unfold daysIn
  split_ifs <;> omega

/-- The time of the day of an instant. -/
theorem timeOfDay_valid (sec : Int) :
    0 ≤ sec % 86400 / 3600 ∧ sec % 86400 / 3600 ≤ 23 ∧
    0 ≤ sec % 86400 % 3600 / 60 ∧ sec % 86400 % 3600 / 60 ≤ 59 ∧
    0 ≤ sec % 86400 % 60 ∧ sec % 86400 % 60 ≤ 59 ∧
    sec / 86400 * 86400 + sec % 86400 / 3600 * 3600 + sec % 86400 % 3600 / 60 * 60
      + sec % 86400 % 60 = sec := by
  omega

/-- An instant from 1970 to the end of the year 9999 is written in the
shape `YYYY-MM-DDTHH:MM:SS.000Z`, and reading that text gives the instant. -/
theorem readTimestamp_Format (e : Int) (h0 : 0 ≤ e) (h1 : e < 253402300800) :
    shapeMatches "####-##-##T##:##:##.000Z".data (Format (Unix e)).data = true ∧
    readTimestamp (Format (Unix e)) = some (Unix e) := by
  obtain ⟨hm1, hm12, hd1, hdmax, hdays⟩ := civilFromDays_valid (e / 86400)
  obtain ⟨hh0, hh23, hmi0, hmi59, hs0, hs59, hsum⟩ := timeOfDay_valid e
  have hd31 := le_trans hdmax (daysIn_le _ _)
  obtain ⟨hy0, hy1⟩ := year_range _ _ _ hm1 hm12 hd1 hd31 (by rw [hdays]; omega)
    (by rw [hdays]; omega)
  have hy0' : 0 ≤ (civilFromDays (e / 86400)).1 := by omega
  have hy1' : (civilFromDays (e / 86400)).1 < 10000 := by omega
  have hm0' : 0 ≤ (civilFromDays (e / 86400)).2.1 := by omega
  have hm1' : (civilFromDays (e / 86400)).2.1 < 100 := by omega
  have hd0' : 0 ≤ (civilFromDays (e / 86400)).2.2 := by omega
  have hd1' : (civilFromDays (e / 86400)).2.2 < 100 := by omega
  have hh1' : e % 86400 / 3600 < 100 := by omega
  have hmi1' : e % 86400 % 3600 / 60 < 100 := by omega
  have hs1' : e % 86400 % 60 < 100 := by omega
  have hdata := format_data e (civilFromDays (e / 86400)).1 (civilFromDays (e / 86400)).2.1
    (civilFromDays (e / 86400)).2.2 rfl hy0' hy1' hm0' hm1' hd0' hd1'
  generalize (civilFromDays (e / 86400)).1 = y at *
  generalize (civilFromDays (e / 86400)).2.1 = m at *
  generalize (civilFromDays (e / 86400)).2.2 = d at *
  have hfy : fieldAt (Format (Unix e)).data 0 4 = y := by
    rw [show Unix e = ⟨e, 0⟩ from rfl, hdata]
    unfold fieldAt
    simp only [List.drop, List.take]
    exact field_four y hy0' hy1'
  have hfm : fieldAt (Format (Unix e)).data 5 2 = m := by
    rw [show Unix e = ⟨e, 0⟩ from rfl, hdata]
    unfold fieldAt
    simp only [List.drop, List.take]
    exact field_two m hm0' hm1'
  have hfd : fieldAt (Format (Unix e)).data 8 2 = d := by
    rw [show Unix e = ⟨e, 0⟩ from rfl, hdata]
    unfold fieldAt
    simp only [List.drop, List.take]
    exact field_two d hd0' hd1'
  have hfh : fieldAt (Format (Unix e)).data 11 2 = e % 86400 / 3600 := by
    rw [show Unix e = ⟨e, 0⟩ from rfl, hdata]
    unfold fieldAt
    simp only [List.drop, List.take]
    exact field_two _ hh0 hh1'
  have hfmi : fieldAt (Format (Unix e)).data 14 2 = e % 86400 % 3600 / 60 := by
    rw [show Unix e = ⟨e, 0⟩ from rfl, hdata]
    unfold fieldAt
    simp only [List.drop, List.take]
    exact field_two _ hmi0 hmi1'
  have hfs : fieldAt (Format (Unix e)).data 17 2 = e % 86400 % 60 := by
    rw [show Unix e = ⟨e, 0⟩ from rfl, hdata]
    unfold fieldAt
    simp only [List.drop, List.take]
    exact field_two _ hs0 hs1'
  have hms : digitsVal (((Format (Unix e)).data.drop 20).take 3) = 0 := by
    rw [show Unix e = ⟨e, 0⟩ from rfl, hdata]
    simp only [List.drop, List.take]
    decide
  have hshape : shapeMatches "####-##-##T##:##:##.000Z".data (Format (Unix e)).data = true := by
    rw [show Unix e = ⟨e, 0⟩ from rfl, hdata]
    simp [shapeMatches, isDigitChar_digitChar]
  have hshape2 : shapeMatches "####-##-##T##:##:##.###Z".data (Format (Unix e)).data = true := by
    rw [show Unix e = ⟨e, 0⟩ from rfl, hdata]
    simp [shapeMatches, isDigitChar_digitChar]
    decide
  have hvalid : validFields (Format (Unix e)).data := by
    unfold validFields
    rw [hfy, hfm, hfd, hfh, hfmi, hfs]
    exact ⟨hm1, hm12, hd1, hdmax, hh23, hmi59, hs59⟩
  refine ⟨hshape, ?_⟩
  unfold readTimestamp
  rw [if_pos ⟨hshape2, hvalid⟩, hfy, hfm, hfd, hfh, hfmi, hfs, hms]
  unfold Date Unix
  rw [hdays]
  exact congrArg some (congrArg₂ Time.mk hsum rfl)

/-- A text has a non-empty shape exactly when its first rune fits the first
rune of the shape and the rest has the rest of the shape. -/
theorem shapeMatches_cons_iff (p : Char) (shape text : List Char) :
    shapeMatches (p :: shape) text = true ↔
      ∃ c rest, text = c :: rest ∧ (if p = '#' then isDigitChar c = true else c = p) ∧
        shapeMatches shape rest = true := by
  cases text with
  | nil => simp [shapeMatches]
  | cons c rest =>
    by_cases hp : p = '#'
    · simp only [shapeMatches, hp, if_true, Bool.and_eq_true, List.cons.injEq]
      constructor
      · rintro ⟨h1, h2⟩
        exact ⟨c, rest, ⟨rfl, rfl⟩, h1, h2⟩
      · rintro ⟨c1, r1, ⟨rfl, rfl⟩, h1, h2⟩
        exact ⟨h1, h2⟩
    · simp only [shapeMatches, hp, if_false, Bool.and_eq_true, decide_eq_true_eq,
        List.cons.injEq]
      constructor
      · rintro ⟨h1, h2⟩
        exact ⟨c, rest, ⟨rfl, rfl⟩, h1, h2⟩
      · rintro ⟨c1, r1, ⟨rfl, rfl⟩, h1, h2⟩
        exact ⟨h1, h2⟩

/-- Only the empty text has the empty shape. -/
theorem shapeMatches_nil_iff (text : List Char) : shapeMatches [] text = true ↔ text = [] := by
  cases text <;> simp [shapeMatches]

/-- The runes of a text in the shape of the source format. -/
theorem source_shape (text : List Char)
    (h : shapeMatches "####-##-##T##:##:##".data text = true) :
    ∃ y1 y2 y3 y4 m1 m2 d1 d2 h1 h2 n1 n2 s1 s2 : Char,
      text = [y1, y2, y3, y4, '-', m1, m2, '-', d1, d2, 'T', h1, h2, ':', n1, n2, ':', s1, s2] ∧
      isDigitChar y1 = true ∧ isDigitChar y2 = true ∧ isDigitChar y3 = true ∧
      isDigitChar y4 = true ∧ isDigitChar m1 = true ∧ isDigitChar m2 = true ∧
      isDigitChar d1 = true ∧ isDigitChar d2 = true ∧ isDigitChar h1 = true ∧
      isDigitChar h2 = true ∧ isDigitChar n1 = true ∧ isDigitChar n2 = true ∧
      isDigitChar s1 = true ∧ isDigitChar s2 = true := by
  rw [show "####-##-##T##:##:##".data
    = ['#', '#', '#', '#', '-', '#', '#', '-', '#', '#', 'T', '#', '#', ':', '#', '#', ':',
        '#', '#'] from rfl] at h
  simp only [shapeMatches_cons_iff, shapeMatches_nil_iff] at h
  obtain ⟨y1, _, rfl, hy1, y2, _, rfl, hy2, y3, _, rfl, hy3, y4, _, rfl, hy4, c4, _, rfl, hc4,
    m1, _, rfl, hm1, m2, _, rfl, hm2, c7, _, rfl, hc7, d1, _, rfl, hd1, d2, _, rfl, hd2,
    c10, _, rfl, hc10, h1, _, rfl, hh1, h2, _, rfl, hh2, c13, _, rfl, hc13,
    n1, _, rfl, hn1, n2, _, rfl, hn2, c16, _, rfl, hc16, s1, _, rfl, hs1, s2, _, rfl, hs2, rfl⟩ := h
  rw [if_pos trivial] at hy1 hy2 hy3 hy4 hm1 hm2 hd1 hd2 hh1 hh2 hn1 hn2 hs1 hs2
  rw [if_neg (by decide)] at hc4 hc7 hc10 hc13 hc16
  subst hc4 hc7 hc10 hc13 hc16
  exact ⟨y1, y2, y3, y4, m1, m2, d1, d2, h1, h2, n1, n2, s1, s2, rfl, hy1, hy2, hy3, hy4, hm1,
    hm2, hd1, hd2, hh1, hh2, hn1, hn2, hs1, hs2⟩

/-- The value of two digits as `getnum` computes it. -/
theorem digitVal_two (a b : Char) :
    digitVal a * 10 + digitVal b = Int.ofNat (digitsVal [a, b]) := by
  rw [digitsVal_two]
  simp [digitVal]

/-- The value of four digits as the year field computes it. -/
theorem digitVal_four (a b c d : Char) :
    digitVal a * 1000 + digitVal b * 100 + digitVal c * 10 + digitVal d
      = Int.ofNat (digitsVal [a, b, c, d]) := by
  rw [digitsVal_four]
  simp [digitVal]

/-- The year field of a text that starts with four digits. -/
theorem getYear_digits (a b c d : Char) (rest : List Char) (ha : isDigitChar a = true)
    (hb : isDigitChar b = true) (hc : isDigitChar c = true) (hd : isDigitChar d = true) :
    getYear (a :: b :: c :: d :: rest) = some (Int.ofNat (digitsVal [a, b, c, d]), rest) := by
  simp only [getYear, ha, hb, hc, hd, and_self, if_true, digitVal_four]

/-- A numeric field of a text that starts with two digits. -/
theorem getnum_digits (a b : Char) (rest : List Char) ( fixed : Bool)
    (ha : isDigitChar a = true) (hb : isDigitChar b = true) :
    getnum (a :: b :: rest) fixed = some (Int.ofNat (digitsVal [a, b]), rest) := by
  simp only [getnum, ha, hb, if_true, digitVal_two]

/-- A literal rune of the layout at the head of the text. -/
theorem skipLit_cons (c : Char) (rest : List Char) : skipLit c (c :: rest) = some rest := by
  simp only [skipLit, if_true]

/-- The digits of a digit value are below ten. -/
theorem digit_lt_ten (c : Char) (h : isDigitChar c = true) : c.toNat - 48 < 10 := by
  unfold isDigitChar at h
  rw [decide_eq_true_eq] at h
  omega

/-- Writing the value of two digits gives the two digits. -/
theorem written_two (a b : Char) (ha : isDigitChar a = true) (hb : isDigitChar b = true) :
    digitChar ((Int.ofNat (digitsVal [a, b])).toNat / 10) = a ∧
    digitChar (Int.ofNat (digitsVal [a, b])).toNat = b := by
  have h1 := digit_lt_ten a ha
  have h2 := digit_lt_ten b hb
  rw [show (Int.ofNat (digitsVal [a, b])).toNat = digitsVal [a, b] from rfl, digitsVal_two]
  constructor
  · rw [show ((a.toNat - 48) * 10 + (b.toNat - 48)) / 10 = a.toNat - 48 by omega]
    exact digitChar_of_isDigitChar a ha
  · rw [← digitChar_mod,
      show ((a.toNat - 48) * 10 + (b.toNat - 48)) % 10 = b.toNat - 48 by omega]
    exact digitChar_of_isDigitChar b hb

/-- Writing the value of four digits gives the four digits. -/
theorem written_four (a b c d : Char) (ha : isDigitChar a = true) (hb : isDigitChar b = true)
    (hc : isDigitChar c = true) (hd : isDigitChar d = true) :
    digitChar ((Int.ofNat (digitsVal [a, b, c, d])).toNat / 1000) = a ∧
    digitChar ((Int.ofNat (digitsVal [a, b, c, d])).toNat / 100) = b ∧
    digitChar ((Int.ofNat (digitsVal [a, b, c, d])).toNat / 10) = c ∧
    digitChar (Int.ofNat (digitsVal [a, b, c, d])).toNat = d := by
  have h1 := digit_lt_ten a ha
  have h2 := digit_lt_ten b hb
  have h3 := digit_lt_ten c hc
  have h4 := digit_lt_ten d hd
  rw [show (Int.ofNat (digitsVal [a, b, c, d])).toNat = digitsVal [a, b, c, d] from rfl,
    digitsVal_four]
  refine ⟨?_, ?_, ?_, ?_⟩
  · rw [show ((a.toNat - 48) * 1000 + (b.toNat - 48) * 100 + (c.toNat - 48) * 10
        + (d.toNat - 48)) / 1000 = a.toNat - 48 by omega]
    exact digitChar_of_isDigitChar a ha
  · rw [← digitChar_mod,
      show ((a.toNat - 48) * 1000 + (b.toNat - 48) * 100 + (c.toNat - 48) * 10
        + (d.toNat - 48)) / 100 % 10 = b.toNat - 48 by omega]
    exact digitChar_of_isDigitChar b hb
  · rw [← digitChar_mod,
      show ((a.toNat - 48) * 1000 + (b.toNat - 48) * 100 + (c.toNat - 48) * 10
        + (d.toNat - 48)) / 10 % 10 = c.toNat - 48 by omega]
    exact digitChar_of_isDigitChar c hc
  · rw [← digitChar_mod,
      show ((a.toNat - 48) * 1000 + (b.toNat - 48) * 100 + (c.toNat - 48) * 10
        + (d.toNat - 48)) % 10 = d.toNat - 48 by omega]
    exact digitChar_of_isDigitChar d hd

/-- The result of `Parse` when every field is read and every check passes. -/
theorem Parse_of_steps (s : String) (year month day hour min sec : Int) (nsec : Nat)
    (r1 r2 r3 r4 r5 r6 r7 r8 r9 r10 r11 : List Char)
    (h1 : getYear s.data = some (year, r1)) (h2 : skipLit '-' r1 = some r2)
    (h3 : getnum r2 true = some (month, r3)) (g1 : ¬ (month ≤ 0 ∨ 12 < month))
    (h4 : skipLit '-' r3 = some r4) (h5 : getnum r4 true = some (day, r5))
    (h6 : skipLit 'T' r5 = some r6) (h7 : getnum r6 false = some (hour, r7))
    (g2 : ¬ 24 ≤ hour) (h8 : skipLit ':' r7 = some r8)
    (h9 : getnum r8 true = some (min, r9)) (g3 : ¬ 60 ≤ min)
    (h10 : skipLit ':' r9 = some r10) (h11 : getnum r10 true = some (sec, r11))
    (g4 : ¬ 60 ≤ sec) (h12 : getFraction r11 = (nsec, []))
    (g5 : ¬ (day < 1 ∨ day > daysIn month year)) :
    Parse s = some (Date year month day hour min sec nsec) := by
  simp only [Parse, h1, h2, h3, h4, h5, h6, h7, h8, h9, h10, h11, h12, g1, g2, g3, g4, g5,
    Option.bind_eq_bind, Option.some_bind, if_false, Option.pure_def, ne_eq, not_true_eq_false]

/-- The text written for the instant of a date and a time of day. -/
theorem format_Date (Y M D H N S : Int) (hY0 : 0 ≤ Y) (hY : Y < 10000) (hM1 : 1 ≤ M)
    (hM12 : M ≤ 12) (hD1 : 1 ≤ D) (hD : D ≤ daysIn M Y) (hH0 : 0 ≤ H) (hH : H ≤ 23)
    (hN0 : 0 ≤ N) (hN : N ≤ 59) (hS0 : 0 ≤ S) (hS : S ≤ 59) :
    (Format (Date Y M D H N S 0)).data =
      [digitChar (Y.toNat / 1000), digitChar (Y.toNat / 100), digitChar (Y.toNat / 10),
        digitChar Y.toNat, '-', digitChar (M.toNat / 10), digitChar M.toNat, '-',
        digitChar (D.toNat / 10), digitChar D.toNat, 'T',
        digitChar (H.toNat / 10), digitChar H.toNat, ':',
        digitChar (N.toNat / 10), digitChar N.toNat, ':',
        digitChar (S.toNat / 10), digitChar S.toNat, '.', '0', '0', '0', 'Z'] := by
  have hD31 := le_trans hD (daysIn_le M Y)
  have hcivil := civilFromDays_daysFromCivil Y M D hM1 hM12 hD1 hD
  unfold Date
  generalize daysFromCivil Y M D = z at hcivil ⊢
  have hday : (z * 86400 + H * 3600 + N * 60 + S) / 86400 = z := by omega
  have hh : (z * 86400 + H * 3600 + N * 60 + S) % 86400 / 3600 = H := by omega
  have hn : (z * 86400 + H * 3600 + N * 60 + S) % 86400 % 3600 / 60 = N := by omega
  have hs : (z * 86400 + H * 3600 + N * 60 + S) % 86400 % 60 = S := by omega
  have hdata := format_data (z * 86400 + H * 3600 + N * 60 + S) Y M D
    (by rw [hday]; exact hcivil) hY0 hY (by omega) (by omega) (by omega) (by omega)
  rw [hh, hn, hs] at hdata
  exact hdata

/-- The value of a four-digit field is below 10000. -/
theorem digitsVal_four_lt (a b c d : Char) (ha : isDigitChar a = true)
    (hb : isDigitChar b = true) (hc : isDigitChar c = true) (hd : isDigitChar d = true) :
    Int.ofNat (digitsVal [a, b, c, d]) < 10000 := by
  have h1 := digit_lt_ten a ha
  have h2 := digit_lt_ten b hb
  have h3 := digit_lt_ten c hc
  have h4 := digit_lt_ten d hd
  rw [digitsVal_four]
  show ((_ : Nat) : Int) < 10000
  omega

/-- A valid timestamp in the source format parses, and the parsed instant is
written as the same text followed by `.000Z`. -/
theorem Parse_Format_source (s : String) (h : isSourceTimestamp s) :
    ∃ t, Parse s = some t ∧ Format t = s ++ ".000Z" := by
  obtain ⟨hshape, hv⟩ := h
  obtain ⟨y1, y2, y3, y4, m1, m2, d1, d2, h1, h2, n1, n2, s1, s2, hs, hy1, hy2, hy3, hy4,
    hm1, hm2, hd1, hd2, hh1, hh2, hn1, hn2, hs1, hs2⟩ := source_shape s.data hshape
  unfold validFields at hv
  rw [hs] at hv
  simp only [fieldAt, List.drop, List.take] at hv
  obtain ⟨v1, v2, v3, v4, v5, v6, v7⟩ := hv
  have hY := digitsVal_four_lt y1 y2 y3 y4 hy1 hy2 hy3 hy4
  obtain ⟨wy1, wy2, wy3, wy4⟩ := written_four y1 y2 y3 y4 hy1 hy2 hy3 hy4
  obtain ⟨wm1, wm2⟩ := written_two m1 m2 hm1 hm2
  obtain ⟨wd1, wd2⟩ := written_two d1 d2 hd1 hd2
  obtain ⟨wh1, wh2⟩ := written_two h1 h2 hh1 hh2
  obtain ⟨wn1, wn2⟩ := written_two n1 n2 hn1 hn2
  obtain ⟨ws1, ws2⟩ := written_two s1 s2 hs1 hs2
  have hparse : Parse s = some (Date (Int.ofNat (digitsVal [y1, y2, y3, y4]))
      (Int.ofNat (digitsVal [m1, m2])) (Int.ofNat (digitsVal [d1, d2]))
      (Int.ofNat (digitsVal [h1, h2])) (Int.ofNat (digitsVal [n1, n2]))
      (Int.ofNat (digitsVal [s1, s2])) 0) :=
    Parse_of_steps s _ _ _ _ _ _ 0 _ _ _ _ _ _ _ _ _ _ []
      (by rw [hs]; exact getYear_digits y1 y2 y3 y4 _ hy1 hy2 hy3 hy4)
      (skipLit_cons '-' _) (getnum_digits m1 m2 _ true hm1 hm2) (by omega)
      (skipLit_cons '-' _) (getnum_digits d1 d2 _ true hd1 hd2)
      (skipLit_cons 'T' _) (getnum_digits h1 h2 _ false hh1 hh2) (by omega)
      (skipLit_cons ':' _) (getnum_digits n1 n2 _ true hn1 hn2) (by omega)
      (skipLit_cons ':' _) (getnum_digits s1 s2 _ true hs1 hs2) (by omega)
      (show getFraction [] = (0, []) from rfl) (by omega)
  refine ⟨_, hparse, ?_⟩
  apply String.ext
  rw [String.data_append, hs,
    format_Date (Int.ofNat (digitsVal [y1, y2, y3, y4])) (Int.ofNat (digitsVal [m1, m2]))
      (Int.ofNat (digitsVal [d1, d2])) (Int.ofNat (digitsVal [h1, h2]))
      (Int.ofNat (digitsVal [n1, n2])) (Int.ofNat (digitsVal [s1, s2]))
      (Int.ofNat_zero_le _) hY v1 v2 v3 v4 (Int.ofNat_zero_le _) v5
      (Int.ofNat_zero_le _) v6 (Int.ofNat_zero_le _) v7,
    wy1, wy2, wy3, wy4, wm1, wm2, wd1, wd2, wh1, wh2, wn1, wn2, ws1, ws2]
  rfl

/-! ## The claims -/

section Claims

variable (tbl : CaseTable) (SanitizeUsername : String → String)

/-- C1: for every source account (any data limit and used traffic, also used
traffic above the limit) and every configuration, the request produced by
`Process` followed by `ToCreateUserRequest` has `TrafficLimitBytes ≥ 0`. -/
theorem trafficLimitBytes_nonneg (rt : Runtime) (u : MarzbanUser)
    (preferredStrategy : String) (preserveStatus preserveSubHash preserveInbounds : Bool)
    (remnawaveInbounds : String → Option String) :
    0 ≤ ((u.Process rt).ToCreateUserRequest tbl SanitizeUsername preferredStrategy
      preserveStatus preserveSubHash preserveInbounds remnawaveInbounds).1.TrafficLimitBytes := by
  rw [request_TrafficLimitBytes, process_RemainingVolume]
  split_ifs <;> omega

/-- C1 at the account that used 250 bytes of a 100 byte limit. -/
theorem trafficLimitBytes_nonneg_overUsed :
    0 ≤ ((overUsedUser.Process sampleRuntime).ToCreateUserRequest sampleCaseTable
      sampleSanitize "" true true true sampleLookup).1.TrafficLimitBytes :=
  trafficLimitBytes_nonneg sampleCaseTable sampleSanitize sampleRuntime overUsedUser
    "" true true true sampleLookup

/-- C2 as stated fails: with `DataLimit = 2^63 - 1` and `UsedTraffic = -1`,
both `int64` values, the exact difference is `2^63`, so `max(0, difference)`
is `2^63`, which no `int64` holds; the subtraction wraps to `-2^63` and
`Process` returns 0. -/
theorem remainingVolume_wraps :
    isInt64 edgeUser.DataLimit ∧ isInt64 edgeUser.UsedTraffic ∧
    (edgeUser.Process sampleRuntime).RemainingVolume = 0 ∧
    max 0 (edgeUser.DataLimit - edgeUser.UsedTraffic) = 9223372036854775808 ∧
    (edgeUser.Process sampleRuntime).RemainingVolume
      ≠ max 0 (edgeUser.DataLimit - edgeUser.UsedTraffic) := by
  refine ⟨by decide, by decide, by decide, by decide, by decide⟩

/-- C2, amended: whenever the exact difference `DataLimit - UsedTraffic` is
itself an `int64` value (as it is for every pair of non-negative values),
`Process` returns `RemainingVolume = max(0, DataLimit - UsedTraffic)`. -/
theorem remainingVolume_exact (rt : Runtime) (u : MarzbanUser)
    (h : isInt64 (u.DataLimit - u.UsedTraffic)) :
    (u.Process rt).RemainingVolume = max 0 (u.DataLimit - u.UsedTraffic) := by
  rw [process_RemainingVolume, wrapInt64_of_isInt64 _ h]
  split_ifs with h0
  · exact (max_eq_left (le_of_lt h0)).symm
  · exact (max_eq_right (not_lt.mp h0)).symm

/-- C2, amended, at the account that used 250 bytes of a 100 byte limit. -/
theorem remainingVolume_exact_overUsed :
    isInt64 (overUsedUser.DataLimit - overUsedUser.UsedTraffic) ∧
    (overUsedUser.Process sampleRuntime).RemainingVolume
      = max 0 (overUsedUser.DataLimit - overUsedUser.UsedTraffic) :=
  ⟨by decide, remainingVolume_exact sampleRuntime overUsedUser (by decide)⟩

/-- C3: with `preserveInbounds = true` the request lists, in the order of
`p.InboundTags`, the identifier `m[tag]` of every tag that is a key of the
lookup table (duplicates kept, unmatched tags dropped), and
`ActivateAllInbounds` is false. -/
theorem activeUserInbounds_preserved (p : ProcessedUser) (preferredStrategy : String)
    (preserveStatus preserveSubHash : Bool) (m : String → Option String) :
    (p.ToCreateUserRequest tbl SanitizeUsername preferredStrategy preserveStatus
        preserveSubHash true m).1.ActiveUserInbounds = p.InboundTags.filterMap m ∧
    (p.ToCreateUserRequest tbl SanitizeUsername preferredStrategy preserveStatus
        preserveSubHash true m).1.ActivateAllInbounds = false := by
  constructor
  · rw [request_ActiveUserInbounds, if_pos rfl, foldl_resolveInbound]
    rfl
  · rw [request_ActivateAllInbounds]
    rfl

/-- C3 at the tags `a`, `b` with the lookup table `a ↦ id1`: the list is
`[id1]` and activate-all is false. -/
theorem activeUserInbounds_preserved_twoTags :
    (twoTagAccount.ToCreateUserRequest sampleCaseTable sampleSanitize "" false false
        true sampleLookup).1.ActiveUserInbounds = ["id1"] ∧
    (twoTagAccount.ToCreateUserRequest sampleCaseTable sampleSanitize "" false false
        true sampleLookup).1.ActivateAllInbounds = false :=
  activeUserInbounds_preserved sampleCaseTable sampleSanitize twoTagAccount "" false false
    sampleLookup

/-- C4: with `preserveInbounds = false` the request has an empty
`ActiveUserInbounds` and `ActivateAllInbounds = true`, whatever the tags and
the lookup table. -/
theorem activeUserInbounds_dropped (p : ProcessedUser) (preferredStrategy : String)
    (preserveStatus preserveSubHash : Bool) (m : String → Option String) :
    (p.ToCreateUserRequest tbl SanitizeUsername preferredStrategy preserveStatus
        preserveSubHash false m).1.ActiveUserInbounds = [] ∧
    (p.ToCreateUserRequest tbl SanitizeUsername preferredStrategy preserveStatus
        preserveSubHash false m).1.ActivateAllInbounds = true :=
  ⟨rfl, rfl⟩

/-- C4 at the tags `a`, `b` with the lookup table `a ↦ id1`. -/
theorem activeUserInbounds_dropped_twoTags :
    (twoTagAccount.ToCreateUserRequest sampleCaseTable sampleSanitize "" false false
        false sampleLookup).1.ActiveUserInbounds = [] ∧
    (twoTagAccount.ToCreateUserRequest sampleCaseTable sampleSanitize "" false false
        false sampleLookup).1.ActivateAllInbounds = true :=
  activeUserInbounds_dropped sampleCaseTable sampleSanitize twoTagAccount "" false false
    sampleLookup

/-- What `strPtr` returns behind a non-empty test: absent exactly for the
empty string, and when present the string itself, which is not empty. -/
theorem optional_field (s : String) (field : Option String)
    (h : field = if s ≠ "" then strPtr s else none) :
    (field = none ↔ s = "") ∧ (∀ v, field = some v → v = s ∧ v ≠ "") := by
  subst h
  by_cases hs : s = ""
  · simp [hs]
  · simp [hs, strPtr]

/-- C5: each of `VlessUUID`, `TrojanPassword` and `SsPassword` of the request
is absent exactly when the normalized `VlessID`, `TrojanPassword`,
`ShadowsocksPassword` is empty; when present it is that normalized string, and
so never the empty string. -/
theorem credentials_optional (p : ProcessedUser) (preferredStrategy : String)
    (preserveStatus preserveSubHash preserveInbounds : Bool) (m : String → Option String) :
    ((p.ToCreateUserRequest tbl SanitizeUsername preferredStrategy preserveStatus
        preserveSubHash preserveInbounds m).1.VlessUUID = none ↔ p.VlessID = "") ∧
    (∀ v, (p.ToCreateUserRequest tbl SanitizeUsername preferredStrategy preserveStatus
        preserveSubHash preserveInbounds m).1.VlessUUID = some v → v = p.VlessID ∧ v ≠ "") ∧
    ((p.ToCreateUserRequest tbl SanitizeUsername preferredStrategy preserveStatus
        preserveSubHash preserveInbounds m).1.TrojanPassword = none ↔ p.TrojanPassword = "") ∧
    (∀ v, (p.ToCreateUserRequest tbl SanitizeUsername preferredStrategy preserveStatus
        preserveSubHash preserveInbounds m).1.TrojanPassword = some v →
        v = p.TrojanPassword ∧ v ≠ "") ∧
    ((p.ToCreateUserRequest tbl SanitizeUsername preferredStrategy preserveStatus
        preserveSubHash preserveInbounds m).1.SsPassword = none
        ↔ p.ShadowsocksPassword = "") ∧
    (∀ v, (p.ToCreateUserRequest tbl SanitizeUsername preferredStrategy preserveStatus
        preserveSubHash preserveInbounds m).1.SsPassword = some v →
        v = p.ShadowsocksPassword ∧ v ≠ "") := by
  have hv := optional_field p.VlessID _ (request_VlessUUID tbl SanitizeUsername p
    preferredStrategy preserveStatus preserveSubHash preserveInbounds m)
  have ht := optional_field p.TrojanPassword _ (request_TrojanPassword tbl SanitizeUsername p
    preferredStrategy preserveStatus preserveSubHash preserveInbounds m)
  have hs := optional_field p.ShadowsocksPassword _ (request_SsPassword tbl SanitizeUsername p
    preferredStrategy preserveStatus preserveSubHash preserveInbounds m)
  exact ⟨hv.1, hv.2, ht.1, ht.2, hs.1, hs.2⟩

/-- C5 at an account with a VLESS identifier only: the VLESS field carries
it, the Trojan and Shadowsocks fields are absent. -/
theorem credentials_optional_vless :
    (vlessAccount.ToCreateUserRequest sampleCaseTable sampleSanitize "" true true true
        sampleLookup).1.VlessUUID = some "3f1c" ∧
    (vlessAccount.ToCreateUserRequest sampleCaseTable sampleSanitize "" true true true
        sampleLookup).1.TrojanPassword = none ∧
    (vlessAccount.ToCreateUserRequest sampleCaseTable sampleSanitize "" true true true
        sampleLookup).1.SsPassword = none :=
  have h := credentials_optional sampleCaseTable sampleSanitize vlessAccount "" true true true
    sampleLookup
  ⟨by decide, h.2.2.1.mpr rfl, h.2.2.2.2.1.mpr rfl⟩

/-- C6: `ShortUUID` is present if and only if `preserveSubHash` is true and
the subscription hash is non-empty; when present it is the subscription hash;
with `preserveSubHash = false` it is absent. -/
theorem shortUUID_optional (p : ProcessedUser) (preferredStrategy : String)
    (preserveStatus preserveSubHash preserveInbounds : Bool) (m : String → Option String) :
    ((p.ToCreateUserRequest tbl SanitizeUsername preferredStrategy preserveStatus
        preserveSubHash preserveInbounds m).1.ShortUUID.isSome = true
        ↔ preserveSubHash = true ∧ p.SubscriptionHash ≠ "") ∧
    (∀ v, (p.ToCreateUserRequest tbl SanitizeUsername preferredStrategy preserveStatus
        preserveSubHash preserveInbounds m).1.ShortUUID = some v → v = p.SubscriptionHash) ∧
    (preserveSubHash = false →
      (p.ToCreateUserRequest tbl SanitizeUsername preferredStrategy preserveStatus
        preserveSubHash preserveInbounds m).1.ShortUUID = none) := by
  rw [request_ShortUUID]
  by_cases hs : p.SubscriptionHash = "" <;> cases preserveSubHash <;> simp [hs, strPtr]

/-- C6 at an account with the hash `abc123`: kept when `preserveSubHash` is
true, absent when it is false. -/
theorem shortUUID_optional_abc123 :
    (vlessAccount.ToCreateUserRequest sampleCaseTable sampleSanitize "" true true true
        sampleLookup).1.ShortUUID = some "abc123" ∧
    (vlessAccount.ToCreateUserRequest sampleCaseTable sampleSanitize "" true false true
        sampleLookup).1.ShortUUID = none :=
  ⟨by decide, (shortUUID_optional sampleCaseTable sampleSanitize vlessAccount "" true false
    true sampleLookup).2.2 rfl⟩

/-- C7: when the reset strategy is the word `year` in any letter casing and
`preferredStrategy` is empty, the request has `TrafficLimitStrategy` exactly
`NO_RESET`, whatever the other arguments. -/
theorem strategy_year (p : ProcessedUser)
    (preserveStatus preserveSubHash preserveInbounds : Bool) (m : String → Option String)
    (h : isCasingOf p.DataLimitResetStrategy "year") :
    (p.ToCreateUserRequest tbl SanitizeUsername "" preserveStatus preserveSubHash
      preserveInbounds m).1.TrafficLimitStrategy = "NO_RESET" := by
  rw [request_TrafficLimitStrategy, toUpper_of_isCasingOf tbl _ _ h, toUpper_year]
  rfl

/-- C7 at the reset strategy `yEaR`. -/
theorem strategy_year_mixedCase :
    isCasingOf yearlyAccount.DataLimitResetStrategy "year" ∧
    (yearlyAccount.ToCreateUserRequest sampleCaseTable sampleSanitize "" true true true
      sampleLookup).1.TrafficLimitStrategy = "NO_RESET" :=
  ⟨by decide, strategy_year sampleCaseTable sampleSanitize yearlyAccount true true true
    sampleLookup (by decide)⟩

/-- C8: a non-empty `preferredStrategy` is returned as `TrafficLimitStrategy`
unchanged, whatever the reset strategy of the account. -/
theorem strategy_preferred (p : ProcessedUser) (preferredStrategy : String)
    (preserveStatus preserveSubHash preserveInbounds : Bool) (m : String → Option String)
    (h : preferredStrategy ≠ "") :
    (p.ToCreateUserRequest tbl SanitizeUsername preferredStrategy preserveStatus
      preserveSubHash preserveInbounds m).1.TrafficLimitStrategy = preferredStrategy := by
  rw [request_TrafficLimitStrategy, if_pos h]

/-- C8 at the preferred strategy `week`, in lower case, for an account whose
reset strategy is `yEaR`: the result is `week`, not uppercased. -/
theorem strategy_preferred_week :
    "week" ≠ "" ∧
    (yearlyAccount.ToCreateUserRequest sampleCaseTable sampleSanitize "week" true true true
      sampleLookup).1.TrafficLimitStrategy = "week" :=
  ⟨by decide, strategy_preferred sampleCaseTable sampleSanitize yearlyAccount "week" true true
    true sampleLookup (by decide)⟩

/-- C9: the `Status` of the request is never the string `ON_HOLD`, for any
status string of the account and any configuration. -/
theorem status_ne_ON_HOLD (p : ProcessedUser) (preferredStrategy : String)
    (preserveStatus preserveSubHash preserveInbounds : Bool) (m : String → Option String) :
    (p.ToCreateUserRequest tbl SanitizeUsername preferredStrategy preserveStatus
      preserveSubHash preserveInbounds m).1.Status ≠ "ON_HOLD" := by
  rw [request_Status]
  split_ifs with h
  · intro hu
    exact h.2 ((toLower_eq_on_hold_iff tbl p.Status).mpr
      (isCasingOf_of_toUpper_ON_HOLD tbl p.Status hu))
  · decide

/-- C9 at the status `On_Hold` with `preserveStatus = true`: the request
status is `ACTIVE`. -/
theorem status_ne_ON_HOLD_mixedCase :
    (onHoldAccount.ToCreateUserRequest sampleCaseTable sampleSanitize "" true true true
      sampleLookup).1.Status = "ACTIVE" ∧
    (onHoldAccount.ToCreateUserRequest sampleCaseTable sampleSanitize "" true true true
      sampleLookup).1.Status ≠ "ON_HOLD" :=
  ⟨by decide, status_ne_ON_HOLD sampleCaseTable sampleSanitize onHoldAccount "" true true true
    sampleLookup⟩

/-- C10: the request status is the uppercased account status when
`preserveStatus` is true and the account status is not `on_hold` under
case-insensitive comparison, and exactly `ACTIVE` in every other case. -/
theorem status_resolution (p : ProcessedUser) (preferredStrategy : String)
    (preserveStatus preserveSubHash preserveInbounds : Bool) (m : String → Option String) :
    (p.ToCreateUserRequest tbl SanitizeUsername preferredStrategy preserveStatus
      preserveSubHash preserveInbounds m).1.Status
      = if preserveStatus = true ∧ ¬ isCasingOf p.Status "on_hold" then ToUpper tbl p.Status
        else "ACTIVE" := by
  rw [request_Status]
  simp only [ne_eq, toLower_eq_on_hold_iff]

/-- C10 at the status `disabled` with `preserveStatus = true`: the request
status is `DISABLED`. -/
theorem status_resolution_disabled :
    (disabledAccount.ToCreateUserRequest sampleCaseTable sampleSanitize "" true true true
      sampleLookup).1.Status = "DISABLED" :=
  (status_resolution sampleCaseTable sampleSanitize disabledAccount "" true true true
    sampleLookup).trans (by decide)

/-- C11: the subscription hash is the final segment of the subscription URL
split on `/`: it contains no `/`, the URL ends with it, and what stands
before it in the URL is empty or ends with `/`. -/
theorem subscriptionHash_last_segment (rt : Runtime) (u : MarzbanUser) :
    ∃ pre : List Char,
      u.SubscriptionURL.data = pre ++ (u.Process rt).SubscriptionHash.data ∧
      '/' ∉ (u.Process rt).SubscriptionHash.data ∧
      (pre = [] ∨ ∃ front, pre = front ++ ['/']) := by
  rw [process_SubscriptionHash]
  by_cases hs : u.SubscriptionURL = ""
  · exact ⟨[], by simp [hs], by simp [hs], Or.inl rfl⟩
  · obtain ⟨pre, h1, h2, h3, h4⟩ := SplitSlash_last u.SubscriptionURL
    rw [if_pos hs, if_pos h4]
    exact ⟨pre, h1, h2, h3⟩

/-- C11 at four URLs: a path gives its last segment, a URL ending with `/`
gives the empty hash, the empty URL gives the empty hash, and a URL without
`/` gives the whole URL. -/
theorem subscriptionHash_examples :
    (subscribedUser.Process sampleRuntime).SubscriptionHash = "abc123" ∧
    (slashUser.Process sampleRuntime).SubscriptionHash = "" ∧
    (blankUser.Process sampleRuntime).SubscriptionHash = "" ∧
    (tokenUser.Process sampleRuntime).SubscriptionHash = "abc123" ∧
    ∃ pre : List Char,
      subscribedUser.SubscriptionURL.data
        = pre ++ (subscribedUser.Process sampleRuntime).SubscriptionHash.data ∧
      '/' ∉ (subscribedUser.Process sampleRuntime).SubscriptionHash.data ∧
      (pre = [] ∨ ∃ front, pre = front ++ ['/']) :=
  ⟨by decide, by decide, by decide, by decide,
    subscriptionHash_last_segment sampleRuntime subscribedUser⟩

/-- C12: when `Expire` is not greater than 0, the expiry text is exactly
`2099-12-31T15:13:22.214Z`, whatever the other fields. -/
theorem expire_sentinel (rt : Runtime) (u : MarzbanUser) (h : u.Expire ≤ 0) :
    (u.Process rt).Expire = "2099-12-31T15:13:22.214Z" := by
  rw [process_Expire, if_neg (not_lt.mpr h)]
  decide

/-- C12 at a negative epoch value. -/
theorem expire_sentinel_negative :
    negativeExpireUser.Expire ≤ 0 ∧
    (negativeExpireUser.Process sampleRuntime).Expire = "2099-12-31T15:13:22.214Z" :=
  ⟨by decide, expire_sentinel sampleRuntime negativeExpireUser (by decide)⟩

/-- C13: for `Expire = e > 0` the expiry text is the UTC calendar date and
time of epoch second `e`, written as year, month, day, hour, minute and second
with the millisecond part `000` and the letter `Z`; the year has four digits
up to the year 9999 (and more beyond). For `e` within the years 1970 to 9999
the text has the shape `YYYY-MM-DDTHH:MM:SS.000Z`, reading it back gives the
instant `e`, and writing that instant again gives the same text. -/
theorem expire_exact (rt : Runtime) (u : MarzbanUser) (h : 0 < u.Expire) :
    (∃ year month day hour min sec : Int,
      1 ≤ month ∧ month ≤ 12 ∧ 1 ≤ day ∧ day ≤ daysIn month year ∧
      0 ≤ hour ∧ hour ≤ 23 ∧ 0 ≤ min ∧ min ≤ 59 ∧ 0 ≤ sec ∧ sec ≤ 59 ∧
      Date year month day hour min sec 0 = Unix u.Expire ∧
      (u.Process rt).Expire.data
        = appendInt year 4 ++ '-' :: appendInt month 2 ++ '-' :: appendInt day 2
          ++ 'T' :: appendInt hour 2 ++ ':' :: appendInt min 2 ++ ':' :: appendInt sec 2
          ++ ".000Z".data) ∧
    (u.Expire < 253402300800 →
      shapeMatches "####-##-##T##:##:##.000Z".data (u.Process rt).Expire.data = true ∧
      readTimestamp (u.Process rt).Expire = some (Unix u.Expire) ∧
      (readTimestamp (u.Process rt).Expire).map Format = some (u.Process rt).Expire) := by
  have hexp : (u.Process rt).Expire = Format (Unix u.Expire) := by
    rw [process_Expire, if_pos h]
  rw [hexp]
  constructor
  · obtain ⟨hm1, hm12, hd1, hdmax, hdays⟩ := civilFromDays_valid (u.Expire / 86400)
    obtain ⟨hh0, hh23, hmi0, hmi59, hs0, hs59, hsum⟩ := timeOfDay_valid u.Expire
    refine ⟨(civilFromDays (u.Expire / 86400)).1, (civilFromDays (u.Expire / 86400)).2.1,
      (civilFromDays (u.Expire / 86400)).2.2, u.Expire % 86400 / 3600,
      u.Expire % 86400 % 3600 / 60, u.Expire % 86400 % 60,
      hm1, hm12, hd1, hdmax, hh0, hh23, hmi0, hmi59, hs0, hs59, ?_, ?_⟩
    · unfold Date Unix
      rw [hdays]
      exact congrArg₂ Time.mk hsum rfl
    · show (Format ⟨u.Expire, 0⟩).data = _
      simp only [Format, millis_zero, List.append_assoc, List.cons_append, List.nil_append,
        List.singleton_append]
  · intro hmax
    obtain ⟨hshape, hread⟩ := readTimestamp_Format u.Expire (le_of_lt h) hmax
    refine ⟨hshape, hread, ?_⟩
    rw [hread]
    rfl

/-- C13 at `e = 86400`: the expiry text is `1970-01-02T00:00:00.000Z`, and
reading it back gives epoch second 86400. -/
theorem expire_exact_dayAfterEpoch :
    0 < dayAfterEpochUser.Expire ∧ dayAfterEpochUser.Expire < 253402300800 ∧
    (dayAfterEpochUser.Process sampleRuntime).Expire = "1970-01-02T00:00:00.000Z" ∧
    readTimestamp (dayAfterEpochUser.Process sampleRuntime).Expire = some (Unix 86400) :=
  ⟨by decide, by decide, by decide,
    ((expire_exact sampleRuntime dayAfterEpochUser (by decide)).2 (by decide)).2.1⟩

/-- C14 as stated fails: the account with the groups `[a]` and `[b, a]` has a
creation time that parses; with `preserveInbounds = true`, a run whose `range`
loop visits the groups in the listed order and a run that visits them in the
reverse order return requests with differently ordered
`ActiveUserInbounds`. -/
theorem transform_runs_differ :
    (Parse twoGroupUser.CreatedAt).isSome = true ∧ 2 ≤ twoGroupUser.Inbounds.length ∧
    ((twoGroupUser.Process sampleRuntime).ToCreateUserRequest sampleCaseTable sampleSanitize
      "" true true true twoEntryLookup).1.ActiveUserInbounds = ["id1", "id2", "id1"] ∧
    ((twoGroupUser.Process reverseRuntime).ToCreateUserRequest sampleCaseTable sampleSanitize
      "" true true true twoEntryLookup).1.ActiveUserInbounds = ["id2", "id1", "id1"] ∧
    ((twoGroupUser.Process sampleRuntime).ToCreateUserRequest sampleCaseTable sampleSanitize
      "" true true true twoEntryLookup).1
      ≠ ((twoGroupUser.Process reverseRuntime).ToCreateUserRequest sampleCaseTable
          sampleSanitize "" true true true twoEntryLookup).1 := by
  refine ⟨by decide, by decide, by decide, by decide, ?_⟩
  intro h
  have h2 := congrArg CreateUserRequest.ActiveUserInbounds h
  revert h2
  decide

/-- C14, amended: for an account whose creation time parses, two runs of the
two stages on the same input return requests that agree in every field other
than `ActiveUserInbounds` and whose `ActiveUserInbounds` hold the same
identifiers equally often; the requests are identical when `preserveInbounds`
is false, when `Inbounds` has at most one group, or when both runs visit the
groups in the same order. -/
theorem transform_runs_agree (rt₁ rt₂ : Runtime) (u : MarzbanUser)
    (preferredStrategy : String) (preserveStatus preserveSubHash preserveInbounds : Bool)
    (m : String → Option String) (h : (Parse u.CreatedAt).isSome = true) :
    { ((u.Process rt₁).ToCreateUserRequest tbl SanitizeUsername preferredStrategy
          preserveStatus preserveSubHash preserveInbounds m).1 with ActiveUserInbounds := [] }
      = { ((u.Process rt₂).ToCreateUserRequest tbl SanitizeUsername preferredStrategy
          preserveStatus preserveSubHash preserveInbounds m).1 with ActiveUserInbounds := [] } ∧
    ((u.Process rt₁).ToCreateUserRequest tbl SanitizeUsername preferredStrategy
        preserveStatus preserveSubHash preserveInbounds m).1.ActiveUserInbounds.Perm
      ((u.Process rt₂).ToCreateUserRequest tbl SanitizeUsername preferredStrategy
        preserveStatus preserveSubHash preserveInbounds m).1.ActiveUserInbounds ∧
    ((preserveInbounds = false ∨ u.Inbounds.length ≤ 1 ∨
        rt₁.rangeOrder u.Inbounds = rt₂.rangeOrder u.Inbounds) →
      ((u.Process rt₁).ToCreateUserRequest tbl SanitizeUsername preferredStrategy
          preserveStatus preserveSubHash preserveInbounds m).1
        = ((u.Process rt₂).ToCreateUserRequest tbl SanitizeUsername preferredStrategy
          preserveStatus preserveSubHash preserveInbounds m).1) := by
  have e₂ : ((u.Process rt₂).ToCreateUserRequest tbl SanitizeUsername preferredStrategy
        preserveStatus preserveSubHash preserveInbounds m).1
      = { ((u.Process rt₁).ToCreateUserRequest tbl SanitizeUsername preferredStrategy
            preserveStatus preserveSubHash preserveInbounds m).1 with
          ActiveUserInbounds :=
            if preserveInbounds = true then (u.Process rt₂).InboundTags.filterMap m else [] } :=
    (congrArg (fun q => (ProcessedUser.ToCreateUserRequest tbl SanitizeUsername q
        preferredStrategy preserveStatus preserveSubHash preserveInbounds m).1)
      (process_runs rt₁ rt₂ u h)).trans
      (request_with_tags tbl SanitizeUsername (u.Process rt₁) (u.Process rt₂).InboundTags
        preferredStrategy preserveStatus preserveSubHash preserveInbounds m)
  have e₁ : ((u.Process rt₁).ToCreateUserRequest tbl SanitizeUsername preferredStrategy
        preserveStatus preserveSubHash preserveInbounds m).1.ActiveUserInbounds
      = if preserveInbounds = true then (u.Process rt₁).InboundTags.filterMap m else [] := by
    rw [request_ActiveUserInbounds, foldl_resolveInbound]
    rfl
  have hperm : ((u.Process rt₁).InboundTags.filterMap m).Perm
      ((u.Process rt₂).InboundTags.filterMap m) := by
    rw [process_InboundTags, process_InboundTags]
    exact (((rt₁.rangeOrder_perm u.Inbounds).trans
      (rt₂.rangeOrder_perm u.Inbounds).symm).map Prod.snd).flatten.filterMap m
  rw [e₂]
  refine ⟨rfl, ?_, ?_⟩
  · show List.Perm _ (if preserveInbounds = true then _ else _)
    rw [e₁]
    split_ifs
    · exact hperm
    · exact List.Perm.refl _
  · intro hcase
    have htags : preserveInbounds = true → (u.Process rt₁).InboundTags
        = (u.Process rt₂).InboundTags := by
      intro hp
      rw [process_InboundTags, process_InboundTags]
      rcases hcase with hf | hlen | horder
      · rw [hf] at hp; exact absurd hp (by decide)
      · rw [eq_of_perm_of_length_le_one _ _ (rt₁.rangeOrder_perm u.Inbounds) hlen,
          eq_of_perm_of_length_le_one _ _ (rt₂.rangeOrder_perm u.Inbounds) hlen]
      · rw [horder]
    have hact : ((u.Process rt₁).ToCreateUserRequest tbl SanitizeUsername preferredStrategy
        preserveStatus preserveSubHash preserveInbounds m).1.ActiveUserInbounds
        = if preserveInbounds = true then (u.Process rt₂).InboundTags.filterMap m else [] := by
      rw [e₁]
      split_ifs with hp
      · rw [htags hp]
      · rfl
    rw [← hact]

/-- C14, amended, at the account with the groups `[a]` and `[b, a]`: with
`preserveInbounds = false` the two runs return the same request. -/
theorem transform_runs_agree_twoGroups :
    (Parse twoGroupUser.CreatedAt).isSome = true ∧
    ((twoGroupUser.Process sampleRuntime).ToCreateUserRequest sampleCaseTable sampleSanitize
        "" true true false twoEntryLookup).1
      = ((twoGroupUser.Process reverseRuntime).ToCreateUserRequest sampleCaseTable
          sampleSanitize "" true true false twoEntryLookup).1 :=
  ⟨by decide, (transform_runs_agree sampleCaseTable sampleSanitize sampleRuntime
    reverseRuntime twoGroupUser "" true true false twoEntryLookup (by decide)).2.2
    (Or.inl rfl)⟩

/-- C15: with `preserveInbounds = true` one line is logged for every
occurrence of a tag of `p.InboundTags` that is not a key of the lookup table,
in order, so the number of lines plus the length of `ActiveUserInbounds` is
the length of `p.InboundTags`; with `preserveInbounds = false` nothing is
logged. -/
theorem warnings_per_unmatched_tag (p : ProcessedUser) (preferredStrategy : String)
    (preserveStatus preserveSubHash : Bool) (m : String → Option String) :
    (p.ToCreateUserRequest tbl SanitizeUsername preferredStrategy preserveStatus
        preserveSubHash true m).2
      = (p.InboundTags.filter (fun tag => (m tag).isNone)).map inboundWarning ∧
    (p.ToCreateUserRequest tbl SanitizeUsername preferredStrategy preserveStatus
        preserveSubHash true m).2.length
      + (p.ToCreateUserRequest tbl SanitizeUsername preferredStrategy preserveStatus
        preserveSubHash true m).1.ActiveUserInbounds.length = p.InboundTags.length ∧
    (p.ToCreateUserRequest tbl SanitizeUsername preferredStrategy preserveStatus
        preserveSubHash false m).2 = [] := by
  have hlog : (p.ToCreateUserRequest tbl SanitizeUsername preferredStrategy preserveStatus
        preserveSubHash true m).2
      = (p.InboundTags.filter (fun tag => (m tag).isNone)).map inboundWarning := by
    rw [request_log, if_pos rfl, foldl_resolveInbound]
    rfl
  have hact : (p.ToCreateUserRequest tbl SanitizeUsername preferredStrategy preserveStatus
        preserveSubHash true m).1.ActiveUserInbounds = p.InboundTags.filterMap m := by
    rw [request_ActiveUserInbounds, if_pos rfl, foldl_resolveInbound]
    rfl
  refine ⟨hlog, ?_, rfl⟩
  rw [hlog, hact, List.length_map]
  generalize p.InboundTags = tags
  induction tags with
  | nil => rfl
  | cons tag rest ih =>
    cases hm : m tag with
    | none =>
      simp only [List.filter_cons, hm, Option.isNone_none, if_true, List.length_cons,
        List.filterMap_cons_none hm]
      omega
    | some uuid =>
      have hf : (Option.isNone (some uuid)) = false := rfl
      simp only [List.filter_cons, hm, hf, List.length_cons, List.filterMap_cons_some hm]
      simp only [Bool.false_eq_true, if_false]
      omega

/-- C15 at the tags `a`, `b` with the lookup table `a ↦ id1`: one line, for
`b`. -/
theorem warnings_twoTags :
    (twoTagAccount.ToCreateUserRequest sampleCaseTable sampleSanitize "" false false
        true sampleLookup).2
      = ["Warning: inbound tag b not found in destination panel, skipping"] ∧
    (twoTagAccount.ToCreateUserRequest sampleCaseTable sampleSanitize "" false false
        false sampleLookup).2 = [] :=
  ⟨(warnings_per_unmatched_tag sampleCaseTable sampleSanitize twoTagAccount "" false false
      sampleLookup).1.trans (by decide),
   (warnings_per_unmatched_tag sampleCaseTable sampleSanitize twoTagAccount "" false false
      sampleLookup).2.2⟩

/-- C16: `TrafficLimitBytes` of the request is `p.RemainingVolume` unchanged,
also when that is negative; no other field of the account and no
configuration argument enters. -/
theorem trafficLimitBytes_unchanged (p : ProcessedUser) (preferredStrategy : String)
    (preserveStatus preserveSubHash preserveInbounds : Bool) (m : String → Option String) :
    (p.ToCreateUserRequest tbl SanitizeUsername preferredStrategy preserveStatus
      preserveSubHash preserveInbounds m).1.TrafficLimitBytes = p.RemainingVolume :=
  request_TrafficLimitBytes tbl SanitizeUsername p preferredStrategy preserveStatus
    preserveSubHash preserveInbounds m

/-- C16 at a remaining volume of -5: the request carries -5. -/
theorem trafficLimitBytes_unchanged_negative :
    (negativeVolumeAccount.ToCreateUserRequest sampleCaseTable sampleSanitize "" true true
      true sampleLookup).1.TrafficLimitBytes = -5 :=
  trafficLimitBytes_unchanged sampleCaseTable sampleSanitize negativeVolumeAccount "" true
    true true sampleLookup

/-- C17: the inbound tags of the normalized account are the tag lists of all
groups of `Inbounds`, concatenated in some order of the groups: each list in
one block in its own order, the total length the sum of the lengths, and
every tag as often as it occurs in all groups together. -/
theorem inboundTags_concatenation (rt : Runtime) (u : MarzbanUser) :
    ∃ groups : List (String × List String), groups.Perm u.Inbounds ∧
      (u.Process rt).InboundTags = (groups.map Prod.snd).flatten ∧
      (u.Process rt).InboundTags.length = (u.Inbounds.map (fun g => g.2.length)).sum ∧
      ∀ tag, (u.Process rt).InboundTags.count tag
        = (u.Inbounds.map (fun g => g.2.count tag)).sum := by
  have hp := rt.rangeOrder_perm u.Inbounds
  refine ⟨rt.rangeOrder u.Inbounds, hp, process_InboundTags rt u, ?_, ?_⟩
  · rw [process_InboundTags, List.length_flatten, List.map_map]
    exact (hp.map _).sum_eq
  · intro tag
    rw [process_InboundTags, List.count_flatten, List.map_map]
    exact (hp.map _).sum_eq

/-- C17 at an account with the groups `[a]` and `[b, a]`, visited in the
listed order and in the reverse order. -/
theorem inboundTags_twoGroups :
    (twoGroupUser.Process sampleRuntime).InboundTags = ["a", "b", "a"] ∧
    (twoGroupUser.Process reverseRuntime).InboundTags = ["b", "a", "a"] ∧
    ∃ groups : List (String × List String), groups.Perm twoGroupUser.Inbounds ∧
      (twoGroupUser.Process reverseRuntime).InboundTags = (groups.map Prod.snd).flatten ∧
      (twoGroupUser.Process reverseRuntime).InboundTags.length
        = (twoGroupUser.Inbounds.map (fun g => g.2.length)).sum ∧
      ∀ tag, (twoGroupUser.Process reverseRuntime).InboundTags.count tag
        = (twoGroupUser.Inbounds.map (fun g => g.2.count tag)).sum :=
  ⟨by decide, by decide, inboundTags_concatenation reverseRuntime twoGroupUser⟩

/-- C18: when `CreatedAt` is a valid timestamp in the source format
`YYYY-MM-DDTHH:MM:SS`, the creation text of the normalized account is
`CreatedAt` followed by `.000Z`; and whenever `CreatedAt` parses, the creation
text is the parsed instant, not the clock of the run. -/
theorem createdAt_source (rt : Runtime) (u : MarzbanUser)
    (h : isSourceTimestamp u.CreatedAt) :
    (u.Process rt).CreatedAt = u.CreatedAt ++ ".000Z" ∧
    ∀ (v : MarzbanUser) (t : Time), Parse v.CreatedAt = some t →
      (v.Process rt).CreatedAt = Format t := by
  constructor
  · obtain ⟨t, hparse, hformat⟩ := Parse_Format_source u.CreatedAt h
    rw [process_CreatedAt, hparse]
    exact hformat
  · intro v t hparse
    rw [process_CreatedAt, hparse]

/-- C18 at `2024-02-29T10:00:00`, a leap day. -/
theorem createdAt_source_leapDay :
    isSourceTimestamp twoGroupUser.CreatedAt ∧
    (twoGroupUser.Process sampleRuntime).CreatedAt = "2024-02-29T10:00:00.000Z" :=
  ⟨by decide, (createdAt_source sampleRuntime twoGroupUser (by decide)).1⟩

/-- C19: when the uppercased reset strategy is not `YEAR` and
`preferredStrategy` is empty, the request has the uppercased reset strategy
as `TrafficLimitStrategy`: unknown words and the empty string pass through. -/
theorem strategy_passthrough (p : ProcessedUser)
    (preserveStatus preserveSubHash preserveInbounds : Bool) (m : String → Option String)
    (h : ToUpper tbl p.DataLimitResetStrategy ≠ "YEAR") :
    (p.ToCreateUserRequest tbl SanitizeUsername "" preserveStatus preserveSubHash
      preserveInbounds m).1.TrafficLimitStrategy = ToUpper tbl p.DataLimitResetStrategy := by
  rw [request_TrafficLimitStrategy, if_neg (by simp), if_neg h]

/-- C19 at the unknown word `fortnight` and at the empty string. -/
theorem strategy_passthrough_unknown :
    (oddStrategyAccount.ToCreateUserRequest sampleCaseTable sampleSanitize "" true true
      true sampleLookup).1.TrafficLimitStrategy = "FORTNIGHT" ∧
    (blankProcessed.ToCreateUserRequest sampleCaseTable sampleSanitize "" true true
      true sampleLookup).1.TrafficLimitStrategy = "" :=
  ⟨(strategy_passthrough sampleCaseTable sampleSanitize oddStrategyAccount true true true
      sampleLookup (by decide)).trans (by decide),
   (strategy_passthrough sampleCaseTable sampleSanitize blankProcessed true true true
      sampleLookup (by decide)).trans (by decide)⟩

/-- C20: an account without a limit (`DataLimit = 0`, `UsedTraffic ≥ 0`) and
an account that used up its limit (`DataLimit > 0`, `UsedTraffic ≥
DataLimit`) both come out of the two stages with `TrafficLimitBytes = 0`,
for every configuration. -/
theorem unlimited_and_exhausted_alike (rt : Runtime) (u v : MarzbanUser)
    (preferredStrategy : String) (preserveStatus preserveSubHash preserveInbounds : Bool)
    (m : String → Option String)
    (hu : isInt64 u.UsedTraffic) (hu0 : u.DataLimit = 0) (hu1 : 0 ≤ u.UsedTraffic)
    (hv : isInt64 v.DataLimit) (hvu : isInt64 v.UsedTraffic)
    (hv0 : 0 < v.DataLimit) (hv1 : v.DataLimit ≤ v.UsedTraffic) :
    ((u.Process rt).ToCreateUserRequest tbl SanitizeUsername preferredStrategy
      preserveStatus preserveSubHash preserveInbounds m).1.TrafficLimitBytes = 0 ∧
    ((v.Process rt).ToCreateUserRequest tbl SanitizeUsername preferredStrategy
      preserveStatus preserveSubHash preserveInbounds m).1.TrafficLimitBytes = 0 := by
  rw [request_TrafficLimitBytes, request_TrafficLimitBytes, process_RemainingVolume,
    process_RemainingVolume]
  unfold isInt64 minInt64 maxInt64 at hu hv hvu
  unfold wrapInt64
  constructor <;> split_ifs <;> omega

/-- C20 at an account without a limit that used 250 bytes and an account
that used 250 bytes of a 100 byte limit. -/
theorem unlimited_and_exhausted_alike_250 :
    ((unlimitedUser.Process sampleRuntime).ToCreateUserRequest sampleCaseTable
      sampleSanitize "" true true true sampleLookup).1.TrafficLimitBytes = 0 ∧
    ((overUsedUser.Process sampleRuntime).ToCreateUserRequest sampleCaseTable
      sampleSanitize "" true true true sampleLookup).1.TrafficLimitBytes = 0 :=
  unlimited_and_exhausted_alike sampleCaseTable sampleSanitize sampleRuntime unlimitedUser
    overUsedUser "" true true true sampleLookup (by decide) (by decide) (by decide)
    (by decide) (by decide) (by decide) (by decide)

end Claims

end Models
